import Mathlib

/-!
# diskUsage: a shallow embedding of `diskusage.c`

The C program walks a directory tree, sums the sizes of the regular files
below every immediate child of a target directory, sorts the children by size
and prints a report.

Modelling conventions

* A C string is a list of characters (one `Char` per byte, no NUL inside).
* `long long` values are integers; every `+=` on a `long long` is followed by
  `wrap64`, the reduction to the signed 64-bit range.
* The file system is observed through `readdir`, `lstat` and `opendir`.  What
  these calls return below one directory is recorded in a `Listing`: one
  `entry` per `readdir` result, carrying the `lstat` result of the composed
  path and, for a directory, whether `opendir` succeeds and what it lists.
* `stderr` and `stdout` are lists of records, one per `fprintf`/`printf` call
  (or fixed group of calls), carrying the arguments of the call.
* The `int` counters `entry_count` and `entry_capacity` are natural numbers:
  directories of `2^30` entries or more, where `entry_capacity *= 2` would
  leave the range of `int`, are outside the model.
* `malloc` and `realloc` succeed or fail as an allocator `alloc` tells, by the
  number of entries requested; `realloc` keeps the entries already stored.
-/

namespace DiskUsage

/-! ## Data model -/

/-- A NUL-terminated C string, without its terminator. -/
abbrev CString := List Char

/-- The constant `MAX_PATH` of the source. -/
def MAX_PATH : Nat := 4096

/-- Reduction of an integer to the range of `long long`: `[-2^63, 2^63)`. -/
def wrap64 (x : Int) : Int := (x + 2 ^ 63) % 2 ^ 64 - 2 ^ 63

/-- File type bits of `st_mode`. -/
inductive FileType where
  | dir
  | reg
  | lnk
  | chr
  | blk
  | fifo
  | sock
  deriving DecidableEq, Repr

/-- The fields of `struct stat` the program reads. -/
structure Stat where
  st_mode : FileType
  st_size : Int
  deriving DecidableEq, Repr

/-- The macro `S_ISDIR`. -/
def S_ISDIR (m : FileType) : Bool :=
  match m with
  | .dir => true
  | _ => false

/-- The macro `S_ISREG`. -/
def S_ISREG (m : FileType) : Bool :=
  match m with
  | .reg => true
  | _ => false

/-- What `readdir` returns from an open directory, entry by entry.  For each
entry: its `d_name`; the result of `lstat` on the composed path (`none` when
`lstat` returns -1); whether `opendir` on the composed path succeeds; the
listing `opendir` then yields (read only when the entry is a directory that
opens); and the rest of the directory stream. -/
inductive Listing where
  | eof : Listing
  | entry (d_name : CString) (st : Option Stat) (opens : Bool) (sub : Listing)
      (rest : Listing) : Listing
  deriving Repr

/-- One `fprintf(stderr, ...)` call, with its arguments. -/
inductive Diag where
  /-- `"Warning: Cannot open directory: %s (%s)\n"` -/
  | warn_cannot_open (path : CString)
  /-- `"Warning: Path too long, skipping: %s/%s\n"` -/
  | warn_path_too_long (path d_name : CString)
  /-- `"Warning: Cannot stat: %s (%s)\n"` -/
  | warn_cannot_stat (full_path : CString)
  /-- `"Error: NULL path provided\n"` -/
  | err_null_path
  /-- `"Memory allocation failed\n"` -/
  | err_malloc
  /-- `"Error: Cannot open directory: %s (%s)\n"` -/
  | err_cannot_open (path : CString)
  /-- `"Memory reallocation failed\n"` -/
  | err_realloc
  /-- `"Error: -n must be a positive number\n"` -/
  | err_limit
  /-- `"Error: Cannot access '%s': %s\n"` -/
  | err_cannot_access (target : CString)
  /-- `"Error: '%s' is not a directory\n"` -/
  | err_not_directory (target : CString)
  deriving DecidableEq, Repr

/-! ## `calculate_dir_size` -/

/-- The test `strcmp(d_name, ".") == 0 || strcmp(d_name, "..") == 0`. -/
def is_dot (d_name : CString) : Bool :=
  d_name == ['.'] || d_name == ['.', '.']

/-- The string `snprintf(full_path, sizeof(full_path), "%s/%s", path, d_name)`
would write if the buffer were large enough. -/
def compose (path d_name : CString) : CString :=
  path ++ '/' :: d_name

/-- The value `path_len` returned by that `snprintf` call. -/
def path_len (path d_name : CString) : Nat :=
  (compose path d_name).length

/-- The `while ((entry = readdir(dir)) != NULL)` loop of `calculate_dir_size`
(lines 57-86), started with `total_size = acc.1` and with `acc.2` already
written to `stderr`.  The recursive call `calculate_dir_size(full_path,
show_details)` on a subdirectory is unfolded in place: `opendir` either fails
(result 0, one optional warning) or the loop runs on the subdirectory from 0. -/
def dir_loop (path : CString) (show_details : Bool) :
    Listing → Int × List Diag → Int × List Diag
  | .eof, acc => acc
  | .entry d_name st opens sub rest, acc =>
    if is_dot d_name then
      dir_loop path show_details rest acc
    else if path_len path d_name ≥ MAX_PATH then
      dir_loop path show_details rest
        (acc.1, acc.2 ++ (if show_details then [Diag.warn_path_too_long path d_name] else []))
    else
      match st with
      | none =>
        dir_loop path show_details rest
          (acc.1, acc.2 ++
            (if show_details then [Diag.warn_cannot_stat (compose path d_name)] else []))
      | some statbuf =>
        if S_ISDIR statbuf.st_mode then
          let r : Int × List Diag :=
            if opens then
              dir_loop (compose path d_name) show_details sub (0, [])
            else
              (0, if show_details then [Diag.warn_cannot_open (compose path d_name)] else [])
          dir_loop path show_details rest (wrap64 (acc.1 + r.1), acc.2 ++ r.2)
        else if S_ISREG statbuf.st_mode then
          dir_loop path show_details rest (wrap64 (acc.1 + statbuf.st_size), acc.2)
        else
          dir_loop path show_details rest acc

/-- The function `calculate_dir_size(path, show_details)`: the returned
`long long` and what it writes to `stderr`.  `path = none` is the NULL
pointer; `dir` is what `opendir(path)` yields (`none` when it returns NULL). -/
def calculate_dir_size (path : Option CString) (dir : Option Listing)
    (show_details : Bool) : Int × List Diag :=
  match path with
  | none => (0, [])
  | some p =>
    match dir with
    | none => (0, if show_details then [Diag.warn_cannot_open p] else [])
    | some es => dir_loop p show_details es (0, [])

/-- What `opendir` yields on the composed path of an entry. -/
def opendir_entry (opens : Bool) (sub : Listing) : Option Listing :=
  if opens then some sub else none

/-! ## `format_size` -/

/-- The conversion `(double)bytes`: exact below `2^53` in absolute value,
otherwise rounded to 53 significant bits, ties to even. -/
def to_double (bytes : Int) : ℚ :=
  let a := bytes.natAbs
  if a < 2 ^ 53 then (bytes : ℚ)
  else
    let ulp := 2 ^ (Nat.log2 a - 52)
    let q := a / ulp
    let r := a % ulp
    let m := if 2 * r < ulp then q else if ulp < 2 * r then q + 1
      else if q % 2 = 0 then q else q + 1
    if bytes < 0 then -((m * ulp : Nat) : ℚ) else ((m * ulp : Nat) : ℚ)

/-- The loop `while (size >= 1024 && unit_index < 4) { size /= 1024;
unit_index++; }`.  The first argument is `4 - unit_index`, the number of
iterations the second conjunct still allows.  Dividing a double in this range
by 1024 is exact, so `size` stays a rational number. -/
def format_loop : Nat → ℚ → Nat → ℚ × Nat
  | 0, size, unit_index => (size, unit_index)
  | n + 1, size, unit_index =>
    if size ≥ 1024 then format_loop n (size / 1024) (unit_index + 1)
    else (size, unit_index)

/-- The array `units`. -/
def units (unit_index : Nat) : String :=
  match unit_index with
  | 0 => "B"
  | 1 => "KB"
  | 2 => "MB"
  | 3 => "GB"
  | _ => "TB"

/-- Rounding to the nearest integer, ties to the even one. -/
def round_half_even (x : ℚ) : Int :=
  let f := ⌊x⌋
  let d := x - f
  if d < 1 / 2 then f else if 1 / 2 < d then f + 1 else if f % 2 = 0 then f else f + 1

/-- The digits printed for a number of hundredths `c`: integer part, point,
two decimals. -/
def render_hundredths (c : Nat) : String :=
  toString (c / 100) ++ "." ++ toString (c % 100 / 10) ++ toString (c % 10)

/-- The conversion `"%.2f"` of `sprintf`: the value is rounded to two
decimals (ties to even on the exact value) and printed with both. -/
def printf_2f (x : ℚ) : String :=
  if x < 0 then "-" ++ render_hundredths (round_half_even (-x * 100)).toNat
  else render_hundredths (round_half_even (x * 100)).toNat

/-- The function `format_size(bytes, output)`: the string left in `output`. -/
def format_size (bytes : Int) : String :=
  let r := format_loop 4 (to_double bytes) 0
  if r.2 = 0 then toString bytes ++ " " ++ units r.2
  else printf_2f r.1 ++ " " ++ units r.2

/-! ## `compare_entries` and `qsort` -/

/-- The struct `DirEntry`. -/
structure DirEntry where
  path : CString
  size : Int
  deriving DecidableEq, Repr

/-- The function `compare_entries`. -/
def compare_entries (entry_a entry_b : DirEntry) : Int :=
  if entry_b.size > entry_a.size then 1
  else if entry_b.size < entry_a.size then -1
  else 0

/-- The library function `qsort(base, nmemb, size, compar)` on the first
`nmemb` elements.  C fixes its result only as the same elements in an order
in which `compar` never puts a later element strictly before an earlier one;
here it is insertion sort, placing `a` before `b` when `compar a b ≤ 0`. -/
def qsort {α : Type} (compar : α → α → Int) (base : List α) : List α :=
  base.insertionSort (fun a b => compar a b ≤ 0)

/-! ## `analyze_directory` -/

/-- One `printf` call (or fixed group of calls) on `stdout`. -/
inductive Out where
  /-- `"Analyzing directory: %s\n"` -/
  | analyzing (path : CString)
  /-- `"Scanning...\n\n"` -/
  | scanning
  /-- `"Total size: "` followed by `"%s\n\n"` -/
  | total (size_str : String)
  /-- `"No entries found.\n"` -/
  | no_entries
  /-- `"Top entries by size:\n"` and the two column header lines -/
  | header
  /-- `"%-50s %15s %9.2f%%\n"` with its three arguments; `percent` is the
  real-number value of the double expression, before any rounding -/
  | row (display_name : CString) (size_str : String) (percent : ℚ)
  /-- the lines of `print_usage` -/
  | usage (program_name : CString)
  deriving DecidableEq

/-- What a run has written to the two streams. -/
structure Output where
  stdout : List Out
  stderr : List Diag
  deriving DecidableEq

/-- The local variables of `analyze_directory` that the scan loop updates:
the initialised prefix `entries[0 .. entry_count)`, `entry_count`,
`entry_capacity`, `total_size`, and what has been written to `stderr`. -/
structure Scan where
  entries : List DirEntry
  entry_count : Nat
  entry_capacity : Nat
  total_size : Int
  err : List Diag
  deriving DecidableEq

/-- The state before the scan loop: no entry, capacity 16, total 0. -/
def Scan.init : Scan :=
  { entries := [], entry_count := 0, entry_capacity := 16, total_size := 0, err := [] }

/-- The `while ((entry = readdir(dir)) != NULL)` loop of `analyze_directory`
(lines 138-179).  `alloc n` tells whether `malloc`/`realloc` of `n` entries
succeeds.  The result is `.error` with the final `stderr` when `realloc` fails
(the function then returns), and the final state otherwise. -/
def scan_loop (alloc : Nat → Bool) (path : CString) :
    Listing → Scan → Except (List Diag) Scan
  | .eof, s => .ok s
  | .entry d_name st opens sub rest, s =>
    if is_dot d_name then
      scan_loop alloc path rest s
    else if path_len path d_name ≥ MAX_PATH then
      scan_loop alloc path rest { s with err := s.err ++ [Diag.warn_path_too_long path d_name] }
    else
      match st with
      | none => scan_loop alloc path rest s
      | some statbuf =>
        let entry_capacity :=
          if s.entry_count ≥ s.entry_capacity then s.entry_capacity * 2 else s.entry_capacity
        if s.entry_count ≥ s.entry_capacity ∧ alloc entry_capacity = false then
          .error (s.err ++ [Diag.err_realloc])
        else
          let r : Int × List Diag :=
            if S_ISDIR statbuf.st_mode then
              calculate_dir_size (some (compose path d_name)) (opendir_entry opens sub) false
            else
              (statbuf.st_size, [])
          scan_loop alloc path rest
            { entries := s.entries ++ [{ path := d_name.take (MAX_PATH - 1), size := r.1 }]
              entry_count := s.entry_count + 1
              entry_capacity := entry_capacity
              total_size := wrap64 (s.total_size + r.1)
              err := s.err ++ r.2 }

/-- The value `(double)entries[i].size / total_size * 100` guarded by
`total_size > 0`, as a real number: the rounding of the double operations is
not modelled. -/
def percent_of (size total_size : Int) : ℚ :=
  if total_size > 0 then (size : ℚ) / (total_size : ℚ) * 100 else 0

/-- The buffer `display_name` built at lines 211-221 from `entries[i].path`. -/
def display_name (path : CString) : CString :=
  if path.length > 47 then path.take 44 ++ ['.', '.', '.']
  else path.take 50

/-- The value `display_count` (line 204). -/
def display_count (limit : Int) (entry_count : Nat) : Nat :=
  if 0 < limit ∧ limit < (entry_count : Int) then limit.toNat else entry_count

/-- The row printed for `entries[i]` in the display loop. -/
def row_of (total_size : Int) (e : DirEntry) : Out :=
  Out.row (display_name e.path) (format_size e.size) (percent_of e.size total_size)

/-- Lines 181-227 of `analyze_directory`: sort and print, from the state the
scan loop left. -/
def report (s : Scan) (limit : Int) : List Out :=
  let entries := if s.entry_count > 0 then qsort compare_entries s.entries else s.entries
  if s.entry_count = 0 then
    [Out.total (format_size s.total_size), Out.no_entries]
  else
    Out.total (format_size s.total_size) :: Out.header ::
      (entries.take (display_count limit s.entry_count)).map (row_of s.total_size)

/-- The function `analyze_directory(path, limit)`.  `path = none` is the NULL
pointer, `dir` is what `opendir(path)` yields, `alloc n` tells whether
`malloc`/`realloc` of `n` entries succeeds. -/
def analyze_directory (alloc : Nat → Bool) (path : Option CString)
    (dir : Option Listing) (limit : Int) : Output :=
  match path with
  | none => { stdout := [], stderr := [Diag.err_null_path] }
  | some p =>
    if alloc 16 = false then { stdout := [], stderr := [Diag.err_malloc] }
    else
      match dir with
      | none => { stdout := [], stderr := [Diag.err_cannot_open p] }
      | some es =>
        match scan_loop alloc p es Scan.init with
        | .error err => { stdout := [Out.analyzing p, Out.scanning], stderr := err }
        | .ok s =>
          { stdout := Out.analyzing p :: Out.scanning :: report s limit, stderr := s.err }

/-! ## `main` -/

/-- The test `isspace` in the C locale. -/
def isspace (c : Char) : Bool :=
  c == ' ' || c == '\t' || c == '\n' || c == '\x0b' || c == '\x0c' || c == '\r'

/-- The digits at the head of a string, accumulated in base ten. -/
def digits_value : CString → Nat → Nat
  | [], acc => acc
  | c :: cs, acc => if c.isDigit then digits_value cs (acc * 10 + (c.toNat - 48)) else acc

/-- The library function `atoi`: leading white space, an optional sign, then
decimal digits up to the first other character; 0 when there is no digit.  The
value is converted to `int` as glibc does, `(int) strtol(nptr, NULL, 10)`:
clamped to `long`, then reduced to 32 bits. -/
def atoi (nptr : CString) : Int :=
  let s := nptr.dropWhile isspace
  let v : Int :=
    match s with
    | '-' :: cs => -(digits_value cs 0 : Int)
    | '+' :: cs => (digits_value cs 0 : Int)
    | cs => (digits_value cs 0 : Int)
  let l : Int := max (-(2 ^ 63)) (min v (2 ^ 63 - 1))
  (l + 2 ^ 31) % 2 ^ 32 - 2 ^ 31

/-- One result of `getopt(argc, argv, "n:h")`. -/
inductive GetOpt where
  /-- the option `n` with its argument `optarg` -/
  | n (optarg : CString)
  /-- the option `h` -/
  | h
  /-- the character `?`: unknown option or missing argument -/
  | unknown
  deriving DecidableEq, Repr

/-- The option loop of `main` (lines 246-262) over the successive results of
`getopt`: the final `limit`, or the exit status and output of an early
`return`. -/
def parse_options (program_name : CString) : List GetOpt → Int → Except (Int × Output) Int
  | [], limit => .ok limit
  | .n optarg :: rest, _ =>
    let limit := atoi optarg
    if limit ≤ 0 then .error (1, { stdout := [], stderr := [Diag.err_limit] })
    else parse_options program_name rest limit
  | .h :: _, _ => .error (0, { stdout := [Out.usage program_name], stderr := [] })
  | .unknown :: _, _ => .error (1, { stdout := [Out.usage program_name], stderr := [] })

/-- The environment of one run of the program: the results of `stat` and
`realpath` on the target, of `opendir` on the path then analyzed, and of the
allocator. -/
structure Env where
  stat : CString → Option Stat
  realpath : CString → Option CString
  opendir : CString → Option Listing
  alloc : Nat → Bool

/-- The function `main`: exit status and output.  `opts` are the successive
results of `getopt`, `positional` is `argv[optind]` when `optind < argc`. -/
def main (env : Env) (program_name : CString) (opts : List GetOpt)
    (positional : Option CString) : Int × Output :=
  match parse_options program_name opts 0 with
  | .error r => r
  | .ok limit =>
    let target_dir : CString := positional.getD ['.']
    match env.stat target_dir with
    | none => (1, { stdout := [], stderr := [Diag.err_cannot_access target_dir] })
    | some st =>
      if S_ISDIR st.st_mode = false then
        (1, { stdout := [], stderr := [Diag.err_not_directory target_dir] })
      else
        match env.realpath target_dir with
        | some abs_path =>
          (0, analyze_directory env.alloc (some abs_path) (env.opendir abs_path) limit)
        | none =>
          (0, analyze_directory env.alloc (some target_dir) (env.opendir target_dir) limit)

/-! ## Reference definitions and observations -/

/-- Follows the spec's words: the sum of `st_size` over every regular file
reachable through directories; every other kind of entry, and the directories
themselves, count 0; the entries `.` and `..` are not children. -/
def regular_file_total : Listing → Int
  | .eof => 0
  | .entry d_name st _ sub rest =>
    (if is_dot d_name then 0
     else
      match st with
      | some ⟨.dir, _⟩ => regular_file_total sub
      | some ⟨.reg, st_size⟩ => st_size
      | _ => 0) + regular_file_total rest

/-- Every directory below `path` opens, every entry can be stat-ed and every
composed path is shorter than `MAX_PATH`. -/
def all_readable (path : CString) : Listing → Bool
  | .eof => true
  | .entry d_name st opens sub rest =>
    (is_dot d_name ||
      (decide (path_len path d_name < MAX_PATH) &&
        (match st with
         | none => false
         | some statbuf =>
           !S_ISDIR statbuf.st_mode || (opens && all_readable (compose path d_name) sub)))) &&
    all_readable path rest

/-- Every regular file that `regular_file_total` counts has a non-negative
`st_size`. -/
def regular_sizes_nonneg : Listing → Bool
  | .eof => true
  | .entry d_name st _ sub rest =>
    (is_dot d_name ||
      (match st with
       | some ⟨.dir, _⟩ => regular_sizes_nonneg sub
       | some ⟨.reg, st_size⟩ => decide (0 ≤ st_size)
       | _ => true)) &&
    regular_sizes_nonneg rest

/-- The exact sum, in unbounded integers, of the sizes the loop of
`calculate_dir_size` adds: the regular files of the directory and of the
subdirectories it enters, without the entries it skips. -/
def counted_total (path : CString) : Listing → Int
  | .eof => 0
  | .entry d_name st opens sub rest =>
    if is_dot d_name then counted_total path rest
    else if path_len path d_name ≥ MAX_PATH then counted_total path rest
    else
      match st with
      | none => counted_total path rest
      | some statbuf =>
        if S_ISDIR statbuf.st_mode then
          (if opens then counted_total (compose path d_name) sub else 0) +
            counted_total path rest
        else if S_ISREG statbuf.st_mode then statbuf.st_size + counted_total path rest
        else counted_total path rest

/-- The values `total_size + x` computed by every `total_size += x` (lines 81
and 84) during the loop of `calculate_dir_size` started with the given
`total_size`, those of the recursive calls included, in the order computed and
before their reduction to 64 bits. -/
def dir_loop_sums (path : CString) (show_details : Bool) : Listing → Int → List Int
  | .eof, _ => []
  | .entry d_name st opens sub rest, total_size =>
    if is_dot d_name then dir_loop_sums path show_details rest total_size
    else if path_len path d_name ≥ MAX_PATH then dir_loop_sums path show_details rest total_size
    else
      match st with
      | none => dir_loop_sums path show_details rest total_size
      | some statbuf =>
        if S_ISDIR statbuf.st_mode then
          let inner : List Int :=
            if opens then dir_loop_sums (compose path d_name) show_details sub 0 else []
          let r : Int :=
            (calculate_dir_size (some (compose path d_name)) (opendir_entry opens sub)
              show_details).1
          inner ++ (total_size + r) ::
            dir_loop_sums path show_details rest (wrap64 (total_size + r))
        else if S_ISREG statbuf.st_mode then
          (total_size + statbuf.st_size) ::
            dir_loop_sums path show_details rest (wrap64 (total_size + statbuf.st_size))
        else dir_loop_sums path show_details rest total_size

/-- Follows the spec's words (4.2, steps 1 to 3): one entry per immediate
child that is neither `.` nor `..` nor skipped (composed path too long, stat
failure), in the order met, with the name of the child and, as size, the
recursive total without diagnostics for a directory and the stat-reported size
for anything else. -/
def collected (path : CString) : Listing → List DirEntry
  | .eof => []
  | .entry d_name st opens sub rest =>
    if is_dot d_name then collected path rest
    else if path_len path d_name ≥ MAX_PATH then collected path rest
    else
      match st with
      | none => collected path rest
      | some statbuf =>
        { path := d_name
          size :=
            if S_ISDIR statbuf.st_mode then
              (calculate_dir_size (some (compose path d_name)) (opendir_entry opens sub) false).1
            else statbuf.st_size } :: collected path rest

/-- The `long long` accumulation `total_size += size` over a list of entries,
from the left, starting at `t`. -/
def sum64 (t : Int) (l : List DirEntry) : Int :=
  l.foldl (fun t e => wrap64 (t + e.size)) t

/-- The values `total_size + size` computed by `total_size += size` (line 177)
over a list of entries, from `total_size = t`, before their reduction to 64
bits. -/
def sum64_sums (t : Int) : List DirEntry → List Int
  | [] => []
  | e :: l => (t + e.size) :: sum64_sums (wrap64 (t + e.size)) l

/-- Whether the array of `analyze_directory`, holding `entry_count` entries
with capacity `entry_capacity`, takes `n` more entries without a failing
`realloc` (lines 154-164 repeated `n` times). -/
def can_grow (alloc : Nat → Bool) : Nat → Nat → Nat → Bool
  | _, _, 0 => true
  | entry_count, entry_capacity, n + 1 =>
    let cap := if entry_count ≥ entry_capacity then entry_capacity * 2 else entry_capacity
    if entry_count ≥ entry_capacity ∧ alloc cap = false then false
    else can_grow alloc (entry_count + 1) cap n

/-- The test that a record of `stdout` is a row of the table. -/
def Out.is_row : Out → Bool
  | .row _ _ _ => true
  | _ => false

/-- The percentage a record of `stdout` shows: that of a row, 0 otherwise. -/
def Out.percent : Out → ℚ
  | .row _ _ percent => percent
  | _ => 0

/-- The sum of the percentages of the rows printed. -/
def percent_sum (out : List Out) : ℚ :=
  (out.map Out.percent).sum

/-- The directory stream `a` followed by the directory stream `b`. -/
def Listing.append : Listing → Listing → Listing
  | .eof, b => b
  | .entry d_name st opens sub rest, b => .entry d_name st opens sub (rest.append b)

/-- The three conditions under which `calculate_dir_size` skips an entry: the
composed path does not fit in `MAX_PATH`, `lstat` fails, or the entry is a
directory that `opendir` cannot open. -/
def is_skipped (path d_name : CString) (st : Option Stat) (opens : Bool) : Bool :=
  decide (path_len path d_name ≥ MAX_PATH) ||
    (match st with
     | none => true
     | some statbuf => S_ISDIR statbuf.st_mode && !opens)

/-- Two directory trees that differ only in the order in which `readdir`
enumerates the entries of each directory: the same entries, with their
subdirectories reordered in the same sense, in any order. -/
inductive Listing.Perm : Listing → Listing → Prop where
  | eof : Listing.Perm .eof .eof
  | entry (d_name : CString) (st : Option Stat) (opens : Bool) {sub sub2 rest rest2 : Listing} :
      Listing.Perm sub sub2 → Listing.Perm rest rest2 →
      Listing.Perm (.entry d_name st opens sub rest) (.entry d_name st opens sub2 rest2)
  | swap (a : CString) (sta : Option Stat) (oa : Bool) (suba : Listing)
      (b : CString) (stb : Option Stat) (ob : Bool) (subb : Listing) (rest : Listing) :
      Listing.Perm (.entry a sta oa suba (.entry b stb ob subb rest))
        (.entry b stb ob subb (.entry a sta oa suba rest))
  | trans {x y z : Listing} : Listing.Perm x y → Listing.Perm y z → Listing.Perm x z

/-! ## Sample inputs -/

/-- A regular file entry of the given name and size. -/
def file_entry (d_name : String) (st_size : Int) (rest : Listing) : Listing :=
  .entry d_name.toList (some ⟨.reg, st_size⟩) false .eof rest

/-- A directory: `a` (300 bytes), a subdirectory `d` holding `x` (100 bytes), a
symbolic link `l` (7 bytes) and a subdirectory `e` with `y` (50 bytes), then a
symbolic link `s` (11 bytes) and `c` (200 bytes), after `.` and `..`. -/
def sample_tree : Listing :=
  .entry ['.'] (some ⟨.dir, 4096⟩) true .eof <|
  .entry ['.', '.'] (some ⟨.dir, 4096⟩) true .eof <|
  file_entry "a" 300 <|
  .entry ['d'] (some ⟨.dir, 4096⟩) true
    (file_entry "x" 100 <|
     .entry ['l'] (some ⟨.lnk, 7⟩) false .eof <|
     .entry ['e'] (some ⟨.dir, 4096⟩) true (file_entry "y" 50 .eof) .eof) <|
  .entry ['s'] (some ⟨.lnk, 11⟩) false .eof <|
  file_entry "c" 200 .eof

/-- Three regular files of 300, 100 and 200 bytes. -/
def sample_sizes : Listing :=
  file_entry "a" 300 (file_entry "b" 100 (file_entry "c" 200 .eof))

/-- A directory with two regular files of `2^62` bytes each. -/
def two_huge_files : Listing :=
  file_entry "a" (2 ^ 62) (file_entry "b" (2 ^ 62) .eof)

/-- Four regular files of `2^62` bytes each. -/
def four_huge_files : Listing :=
  file_entry "a" (2 ^ 62) (file_entry "b" (2 ^ 62) (file_entry "c" (2 ^ 62)
    (file_entry "d" (2 ^ 62) .eof)))

/-- Four regular files of `2^62` bytes and one of 1 byte. -/
def five_files : Listing :=
  file_entry "a" (2 ^ 62) (file_entry "b" (2 ^ 62) (file_entry "c" (2 ^ 62)
    (file_entry "d" (2 ^ 62) (file_entry "e" 1 .eof))))

/-- A regular file of `2^63 - 1` bytes and a symbolic link of 1 byte. -/
def max_file_and_link : Listing :=
  file_entry "a" (2 ^ 63 - 1) (.entry ['s'] (some ⟨.lnk, 1⟩) false .eof .eof)

/-- A directory whose first entry `g` cannot be stat-ed, followed by a
regular file `a` of 300 bytes. -/
def stat_failure_dir : Listing :=
  .entry ['g'] none false .eof (file_entry "a" 300 .eof)

/-- A directory of `n` regular files of 1 byte each, named `f`, `ff`, ... -/
def many_files : Nat → Listing
  | 0 => .eof
  | n + 1 => .entry (List.replicate (n + 1) 'f') (some ⟨.reg, 1⟩) false .eof (many_files n)

/-- An environment in which the target is a directory holding only `.`, `..`
and an entry that cannot be stat-ed; `realpath` fails and every allocation
succeeds. -/
def sample_env : Env :=
  { stat := fun _ => some ⟨.dir, 4096⟩
    realpath := fun _ => none
    opendir := fun _ =>
      some (.entry ['.'] (some ⟨.dir, 4096⟩) true .eof <|
        .entry ['.', '.'] (some ⟨.dir, 4096⟩) true .eof <|
        .entry ['g'] none false .eof .eof)
    alloc := fun _ => true }

/-- An environment in which the target passes `stat` as a directory but
`opendir` fails on it. -/
def unopenable_env : Env :=
  { stat := fun _ => some ⟨.dir, 4096⟩
    realpath := fun _ => none
    opendir := fun _ => none
    alloc := fun _ => true }

/-! # Theorems -/

/-! ## Arithmetic of `wrap64` and the aggregation loop -/

theorem wrap64_modEq (x : Int) : wrap64 x ≡ x [ZMOD 2 ^ 64] := by
  unfold wrap64 Int.ModEq
  omega

theorem wrap64_of_range (x : Int) (h1 : -2 ^ 63 ≤ x) (h2 : x < 2 ^ 63) : wrap64 x = x := by
  unfold wrap64
  omega

theorem wrap64_range (x : Int) : -2 ^ 63 ≤ wrap64 x ∧ wrap64 x < 2 ^ 63 := by
  unfold wrap64
  omega

theorem dir_loop_range (path : CString) (sd : Bool) (es : Listing) :
    ∀ acc : Int × List Diag, -2 ^ 63 ≤ acc.1 → acc.1 < 2 ^ 63 →
      -2 ^ 63 ≤ (dir_loop path sd es acc).1 ∧ (dir_loop path sd es acc).1 < 2 ^ 63 := by
  induction es generalizing path with
  | eof => intro acc h1 h2; exact ⟨h1, h2⟩
  | entry d_name st opens sub rest _ ih_rest =>
    intro acc h1 h2
    unfold dir_loop
    split
    · exact ih_rest path acc h1 h2
    · split
      · exact ih_rest path _ h1 h2
      · split
        · exact ih_rest path _ h1 h2
        · split
          · exact ih_rest path _ (wrap64_range _).1 (wrap64_range _).2
          · split
            · exact ih_rest path _ (wrap64_range _).1 (wrap64_range _).2
            · exact ih_rest path acc h1 h2

theorem dir_loop_total (sd : Bool) (path : CString) (es : Listing)
    (h : all_readable path es = true) :
    ∀ acc : Int × List Diag,
      (dir_loop path sd es acc).1 ≡ acc.1 + regular_file_total es [ZMOD 2 ^ 64] := by
  induction es generalizing path with
  | eof => intro acc; simp [dir_loop, regular_file_total, Int.ModEq]
  | entry d_name st opens sub rest ih_sub ih_rest =>
    intro acc
    simp only [all_readable, Bool.and_eq_true, Bool.or_eq_true, decide_eq_true_eq] at h
    obtain ⟨h1, h2⟩ := h
    unfold dir_loop regular_file_total
    cases hd : is_dot d_name with
    | true =>
      have := ih_rest path h2 acc
      simp only [if_true]
      simpa using this
    | false =>
      simp only [hd, Bool.false_eq_true, false_or] at h1
      obtain ⟨hlen, hst⟩ := h1
      have hlen2 : ¬ path_len path d_name ≥ MAX_PATH := by omega
      simp only [hlen2, if_false, Bool.false_eq_true]
      cases st with
      | none => simp at hst
      | some statbuf =>
        obtain ⟨mode, sz⟩ := statbuf
        cases mode
        case dir =>
          simp only [S_ISDIR, Bool.not_true, Bool.false_or, Bool.and_eq_true] at hst
          obtain ⟨ho, hs⟩ := hst
          have e1 := ih_sub (compose path d_name) hs (0, [])
          have e2 := ih_rest path h2
            (wrap64 (acc.1 + (dir_loop (compose path d_name) sd sub (0, [])).1),
              acc.2 ++ (dir_loop (compose path d_name) sd sub (0, [])).2)
          have e3 := wrap64_modEq (acc.1 + (dir_loop (compose path d_name) sd sub (0, [])).1)
          simp only [S_ISDIR, ho, if_true]
          simp only [Int.ModEq] at e1 e2 e3 ⊢
          omega
        case reg =>
          have e2 := ih_rest path h2 (wrap64 (acc.1 + sz), acc.2)
          have e3 := wrap64_modEq (acc.1 + sz)
          simp only [S_ISDIR, S_ISREG, if_true, Bool.false_eq_true, if_false]
          simp only [Int.ModEq] at e2 e3 ⊢
          omega
        all_goals
          have e2 := ih_rest path h2 acc
          simp only [S_ISDIR, S_ISREG, Bool.false_eq_true, if_false]
          simp only [Int.ModEq] at e2 ⊢
          omega

/-! ## C1: the aggregate is the sum of the regular file sizes -/

/-- C1 (as stated) fails: for a readable directory holding two regular files
of `2^62` bytes each, the sum of the sizes is `2^63`, which no `long long`
holds; `calculate_dir_size` returns `-2^63`. -/
theorem calculate_dir_size_sum_counterexample :
    all_readable ['/', 'r'] two_huge_files = true ∧
    regular_file_total two_huge_files = 2 ^ 63 ∧
    (calculate_dir_size (some ['/', 'r']) (some two_huge_files) false).1 = -2 ^ 63 := by
  decide

/-- C1 (amended): for every directory tree in which every directory opens,
every entry can be stat-ed and every composed path fits in `MAX_PATH`, and in
which the sum of the regular file sizes lies in the range of `long long`,
`calculate_dir_size` returns the sum of `st_size` over the regular files
reachable through directories; other kinds of entries, and the directories
themselves, contribute 0. -/
theorem calculate_dir_size_eq_regular_file_total (path : CString) (es : Listing)
    (show_details : Bool) (hread : all_readable path es = true)
    (hlo : -2 ^ 63 ≤ regular_file_total es) (hhi : regular_file_total es < 2 ^ 63) :
    (calculate_dir_size (some path) (some es) show_details).1 = regular_file_total es := by
  have h1 := dir_loop_total show_details path es hread (0, [])
  have h2 := dir_loop_range path show_details es (0, []) (by norm_num) (by norm_num)
  simp only [calculate_dir_size]
  simp only [Int.ModEq] at h1
  omega

/-- Witness for C1 (amended): the sample tree, whose regular files sum to 650. -/
theorem calculate_dir_size_eq_regular_file_total_witness :
    all_readable ['/', 'r'] sample_tree = true ∧
    regular_file_total sample_tree = 650 ∧
    (calculate_dir_size (some ['/', 'r']) (some sample_tree) true).1 =
      regular_file_total sample_tree :=
  ⟨by decide, by decide,
    calculate_dir_size_eq_regular_file_total ['/', 'r'] sample_tree true (by decide)
      (by decide) (by decide)⟩

/-! ## The scan loop of `analyze_directory` and the sort -/

theorem take_name_of_fits (path d_name : CString) (h : ¬ path_len path d_name ≥ MAX_PATH) :
    d_name.take (MAX_PATH - 1) = d_name := by
  apply List.take_of_length_le
  simp only [path_len, compose, List.length_append, List.length_cons, MAX_PATH] at h ⊢
  omega

theorem sum64_cons (t : Int) (l : List DirEntry) (e : DirEntry) :
    sum64 t (e :: l) = sum64 (wrap64 (t + e.size)) l := rfl

theorem scan_loop_ok (alloc : Nat → Bool) (path : CString) (es : Listing) :
    ∀ s s2 : Scan, scan_loop alloc path es s = .ok s2 →
      s2.entries = s.entries ++ collected path es ∧
      s2.entry_count = s.entry_count + (collected path es).length ∧
      s2.total_size = sum64 s.total_size (collected path es) := by
  induction es with
  | eof =>
    intro s s2 h
    simp only [scan_loop, Except.ok.injEq] at h
    subst h
    simp [collected, sum64]
  | entry d_name st opens sub rest _ ih =>
    intro s s2 h
    unfold scan_loop at h
    unfold collected
    split at h
    · rename_i hd
      simpa [hd] using ih s s2 h
    · rename_i hd
      split at h
      · rename_i hl
        simpa [hd, hl] using ih _ s2 h
      · rename_i hl
        simp only [hd, hl, if_false, Bool.false_eq_true]
        split at h
        · exact ih s s2 h
        · rename_i statbuf
          simp only at h
          generalize (if s.entry_count ≥ s.entry_capacity then s.entry_capacity * 2
            else s.entry_capacity) = cap at h
          split at h
          · exact absurd h (by simp)
          · obtain ⟨h1, h2, h3⟩ := ih _ s2 h
            simp only [take_name_of_fits path d_name hl] at h1 h2 h3
            refine ⟨?_, ?_, ?_⟩
            · rw [h1]; cases hm : S_ISDIR statbuf.st_mode <;> simp
            · rw [h2]; simp; omega
            · rw [h3, sum64_cons]; cases hm : S_ISDIR statbuf.st_mode <;> simp


theorem compare_entries_le_zero (a b : DirEntry) :
    compare_entries a b ≤ 0 ↔ b.size ≤ a.size := by
  unfold compare_entries
  split
  · constructor
    · intro h; omega
    · intro h; omega
  · split
    · constructor
      · intro _; omega
      · intro _; omega
    · constructor
      · intro _; omega
      · intro _; omega

theorem qsort_perm (l : List DirEntry) : (qsort compare_entries l).Perm l :=
  List.perm_insertionSort _ l

theorem qsort_sorted (l : List DirEntry) :
    (qsort compare_entries l).Pairwise (fun a b => b.size ≤ a.size) := by
  haveI : IsTotal DirEntry (fun a b => compare_entries a b ≤ 0) :=
    ⟨fun a b => by
      rw [compare_entries_le_zero, compare_entries_le_zero]
      exact le_total _ _⟩
  haveI : IsTrans DirEntry (fun a b => compare_entries a b ≤ 0) :=
    ⟨fun a b c => by
      rw [compare_entries_le_zero, compare_entries_le_zero, compare_entries_le_zero]
      intro h1 h2
      exact le_trans h2 h1⟩
  have h := List.sorted_insertionSort (fun a b : DirEntry => compare_entries a b ≤ 0) l
  exact List.Pairwise.imp (fun {a b} hab => (compare_entries_le_zero a b).1 hab) h

theorem analyze_directory_ok (alloc : Nat → Bool) (p : CString) (es : Listing) (limit : Int)
    (s : Scan) (hmem : alloc 16 = true) (hscan : scan_loop alloc p es Scan.init = .ok s) :
    analyze_directory alloc (some p) (some es) limit =
      { stdout := Out.analyzing p :: Out.scanning :: report s limit, stderr := s.err } := by
  simp [analyze_directory, hmem, hscan]

theorem scan_init_ok (alloc : Nat → Bool) (p : CString) (es : Listing) (s : Scan)
    (hscan : scan_loop alloc p es Scan.init = .ok s) :
    s.entries = collected p es ∧ s.entry_count = s.entries.length ∧
      s.total_size = sum64 0 s.entries := by
  obtain ⟨h1, h2, h3⟩ := scan_loop_ok alloc p es Scan.init s hscan
  simp only [Scan.init, List.nil_append, Nat.zero_add] at h1 h2 h3
  rw [h1]
  exact ⟨rfl, h2, h3⟩

theorem filter_is_row_map (t : Int) (l : List DirEntry) :
    (l.map (row_of t)).filter Out.is_row = l.map (row_of t) := by
  induction l with
  | nil => rfl
  | cons e l ih => simp [row_of, Out.is_row] at ih ⊢

theorem rows_of_report (s : Scan) (limit : Int) :
    (report s limit).filter Out.is_row =
      if s.entry_count = 0 then []
      else ((qsort compare_entries s.entries).take (display_count limit s.entry_count)).map
        (row_of s.total_size) := by
  unfold report
  by_cases h : s.entry_count = 0
  · simp [h, Out.is_row]
  · have hpos : s.entry_count > 0 := Nat.pos_of_ne_zero h
    simp only [h, hpos, if_true, if_false]
    rw [List.filter_cons_of_neg (by simp [Out.is_row]),
      List.filter_cons_of_neg (by simp [Out.is_row]), filter_is_row_map]

/-! ## C2: the rows are sorted and, with no limit, a permutation of the entries -/

/-- C2: the rows `analyze_directory` prints are in non-increasing order of
size and, when `limit` is 0, they are a permutation of the collected entries;
children of sizes 300, 100, 200 are reported in the order 300, 200, 100 with
grand total 600. -/
theorem analyze_directory_rows_sorted_perm :
    (∀ (alloc : Nat → Bool) (p : CString) (es : Listing) (limit : Int) (s : Scan),
      alloc 16 = true → scan_loop alloc p es Scan.init = .ok s →
      ∃ shown : List DirEntry,
        (analyze_directory alloc (some p) (some es) limit).stdout.filter Out.is_row =
          shown.map (row_of s.total_size) ∧
        shown.Pairwise (fun a b => b.size ≤ a.size) ∧
        (limit = 0 → shown.Perm s.entries ∧ shown.Perm (collected p es))) ∧
    (analyze_directory (fun _ => true) (some ['/', 'r']) (some sample_sizes) 0).stdout =
      [Out.analyzing ['/', 'r'], Out.scanning, Out.total "600 B", Out.header,
        Out.row ['a'] "300 B" (percent_of 300 600),
        Out.row ['c'] "200 B" (percent_of 200 600),
        Out.row ['b'] "100 B" (percent_of 100 600)] := by
  refine ⟨?_, ?_⟩
  · intro alloc p es limit s hmem hscan
    obtain ⟨hcol, hcount, _⟩ := scan_init_ok alloc p es s hscan
    rw [analyze_directory_ok alloc p es limit s hmem hscan]
    simp only [List.filter_cons_of_neg (show ¬ Out.is_row (Out.analyzing p) = true by simp [Out.is_row]),
      List.filter_cons_of_neg (show ¬ Out.is_row Out.scanning = true by simp [Out.is_row]),
      rows_of_report]
    by_cases h : s.entry_count = 0
    · refine ⟨[], by simp [h], List.Pairwise.nil, fun _ => ?_⟩
      have : s.entries = [] := List.length_eq_zero.1 (by omega)
      rw [← hcol, this]
      exact ⟨List.Perm.refl _, List.Perm.refl _⟩
    · refine ⟨(qsort compare_entries s.entries).take (display_count limit s.entry_count),
        by simp [h], ?_, fun hl => ?_⟩
      · exact List.Pairwise.sublist (List.take_sublist _ _) (qsort_sorted _)
      · have hk : display_count limit s.entry_count = s.entry_count := by
          simp [display_count, hl]
        have hlen : (qsort compare_entries s.entries).length = s.entry_count := by
          rw [(qsort_perm s.entries).length_eq, hcount]
        rw [hk, ← hlen, List.take_length, ← hcol]
        exact ⟨qsort_perm _, qsort_perm _⟩
  · simp [analyze_directory, scan_loop, sample_sizes, file_entry, is_dot, path_len, compose,
      MAX_PATH, Scan.init, S_ISDIR, report, qsort, compare_entries, display_count, row_of,
      display_name, wrap64]
    decide

/-- Witness for C2: the directory with children of 300, 100 and 200 bytes. -/
theorem analyze_directory_rows_sorted_perm_witness :
    scan_loop (fun _ => true) ['/', 'r'] sample_sizes Scan.init =
      .ok ⟨[⟨['a'], 300⟩, ⟨['b'], 100⟩, ⟨['c'], 200⟩], 3, 16, 600, []⟩ ∧
    ∃ shown : List DirEntry,
      (analyze_directory (fun _ => true) (some ['/', 'r']) (some sample_sizes) 0).stdout.filter
          Out.is_row = shown.map (row_of 600) ∧
      shown.Pairwise (fun a b => b.size ≤ a.size) ∧
      shown.Perm [⟨['a'], 300⟩, ⟨['b'], 100⟩, ⟨['c'], 200⟩] ∧
      shown.Perm (collected ['/', 'r'] sample_sizes) :=
  ⟨rfl,
    let ⟨shown, h1, h2, h3⟩ :=
      analyze_directory_rows_sorted_perm.1 (fun _ => true) ['/', 'r'] sample_sizes 0
        ⟨[⟨['a'], 300⟩, ⟨['b'], 100⟩, ⟨['c'], 200⟩], 3, 16, 600, []⟩ rfl rfl
    ⟨shown, h1, h2, h3 rfl⟩⟩

/-! ## C3: the number of rows -/

theorem display_count_eq (limit : Int) (n : Nat) :
    display_count limit n = if 0 < limit then min limit.toNat n else n := by
  unfold display_count
  by_cases h : 0 < limit
  · by_cases h2 : limit < (n : Int)
    · simp only [h, h2, and_self, if_true]
      omega
    · simp only [h, h2, and_false, if_false, if_true]
      omega
  · simp [h]

/-- C3: for a non-empty collection of `n` entries, `analyze_directory` prints
exactly `min(limit, n)` rows when `limit > 0` and exactly `n` rows otherwise;
the rows are the first ones of the list sorted by descending size, so no entry
left out is larger than an entry shown; the grand total printed is the 64-bit
sum over all `n` entries whatever `limit` is.  With `limit = 2` over sizes 300,
100, 200 the rows are 300 and 200 and the total is 600. -/
theorem analyze_directory_row_count :
    (∀ (alloc : Nat → Bool) (p : CString) (es : Listing) (limit : Int) (s : Scan),
      alloc 16 = true → scan_loop alloc p es Scan.init = .ok s → s.entries ≠ [] →
      ∃ (sorted : List DirEntry) (k : Nat),
        (k = if 0 < limit then min limit.toNat s.entries.length else s.entries.length) ∧
        sorted.Perm s.entries ∧
        sorted.Pairwise (fun a b => b.size ≤ a.size) ∧
        (analyze_directory alloc (some p) (some es) limit).stdout =
          Out.analyzing p :: Out.scanning :: Out.total (format_size (sum64 0 s.entries)) ::
            Out.header :: (sorted.take k).map (row_of s.total_size) ∧
        ((sorted.take k).map (row_of s.total_size)).length = k ∧
        (∀ a ∈ sorted.take k, ∀ b ∈ sorted.drop k, b.size ≤ a.size)) ∧
    (analyze_directory (fun _ => true) (some ['/', 'r']) (some sample_sizes) 2).stdout =
      [Out.analyzing ['/', 'r'], Out.scanning, Out.total "600 B", Out.header,
        Out.row ['a'] "300 B" (percent_of 300 600),
        Out.row ['c'] "200 B" (percent_of 200 600)] := by
  refine ⟨?_, ?_⟩
  · intro alloc p es limit s hmem hscan hne
    obtain ⟨_, hcount, htotal⟩ := scan_init_ok alloc p es s hscan
    have hlen : (qsort compare_entries s.entries).length = s.entries.length :=
      (qsort_perm s.entries).length_eq
    have hpos : 0 < s.entries.length := List.length_pos.2 hne
    refine ⟨qsort compare_entries s.entries, display_count limit s.entry_count, ?_,
      qsort_perm _, qsort_sorted _, ?_, ?_, ?_⟩
    · rw [display_count_eq, hcount]
    · rw [analyze_directory_ok alloc p es limit s hmem hscan]
      have h0 : ¬ s.entry_count = 0 := by omega
      have h1 : s.entry_count > 0 := by omega
      simp only [report, h0, h1, if_true, if_false, htotal]
    · rw [List.length_map, List.length_take, hlen, display_count_eq, hcount]
      split <;> omega
    · intro a ha b hb
      exact List.Sorted.rel_of_mem_take_of_mem_drop (qsort_sorted s.entries) ha hb
  · simp [analyze_directory, scan_loop, sample_sizes, file_entry, is_dot, path_len, compose,
      MAX_PATH, Scan.init, S_ISDIR, report, qsort, compare_entries, display_count, row_of,
      display_name, wrap64]
    decide

/-- Witness for C3: `limit = 2` on the directory with children of 300, 100 and
200 bytes. -/
theorem analyze_directory_row_count_witness :
    scan_loop (fun _ => true) ['/', 'r'] sample_sizes Scan.init =
      .ok ⟨[⟨['a'], 300⟩, ⟨['b'], 100⟩, ⟨['c'], 200⟩], 3, 16, 600, []⟩ ∧
    ∃ (sorted : List DirEntry) (k : Nat),
      (k = if (0 : Int) < 2 then min (2 : Int).toNat 3 else 3) ∧
      sorted.Perm [⟨['a'], 300⟩, ⟨['b'], 100⟩, ⟨['c'], 200⟩] ∧
      sorted.Pairwise (fun a b => b.size ≤ a.size) ∧
      (analyze_directory (fun _ => true) (some ['/', 'r']) (some sample_sizes) 2).stdout =
        Out.analyzing ['/', 'r'] :: Out.scanning ::
          Out.total (format_size (sum64 0 [⟨['a'], 300⟩, ⟨['b'], 100⟩, ⟨['c'], 200⟩])) ::
          Out.header :: (sorted.take k).map (row_of 600) ∧
      ((sorted.take k).map (row_of 600)).length = k ∧
      (∀ a ∈ sorted.take k, ∀ b ∈ sorted.drop k, b.size ≤ a.size) :=
  ⟨rfl,
    analyze_directory_row_count.1 (fun _ => true) ['/', 'r'] sample_sizes 2
      ⟨[⟨['a'], 300⟩, ⟨['b'], 100⟩, ⟨['c'], 200⟩], 3, 16, 600, []⟩ rfl rfl (by simp)⟩

/-! ## C4: sizes below 1024 are printed as integers -/

theorem to_double_exact (b : Int) (h1 : -2 ^ 53 < b) (h2 : b < 2 ^ 53) :
    to_double b = (b : ℚ) := by
  unfold to_double
  have : b.natAbs < 2 ^ 53 := by omega
  simp only [this, if_true]

theorem format_loop_small (n : Nat) (x : ℚ) (u : Nat) (h : x < 1024) :
    format_loop n x u = (x, u) := by
  cases n with
  | zero => rfl
  | succ n => simp [format_loop, not_le.2 h]

theorem format_loop_step (n : Nat) (x : ℚ) (u : Nat) (h : 1024 ≤ x) :
    format_loop (n + 1) x u = format_loop n (x / 1024) (u + 1) := by
  simp [format_loop, h]

theorem digitChar_isDigit (m : Nat) (h : m < 10) : (Nat.digitChar m).isDigit = true := by
  interval_cases m <;> decide

theorem toDigitsCore_isDigit (fuel : Nat) :
    ∀ (n : Nat) (ds : List Char), (∀ c ∈ ds, c.isDigit = true) →
      ∀ c ∈ Nat.toDigitsCore 10 fuel n ds, c.isDigit = true := by
  induction fuel with
  | zero => intro n ds h; simpa [Nat.toDigitsCore] using h
  | succ fuel ih =>
    intro n ds h
    have hd : (Nat.digitChar (n % 10)).isDigit = true := digitChar_isDigit _ (Nat.mod_lt _ (by norm_num))
    have hds : ∀ c ∈ Nat.digitChar (n % 10) :: ds, c.isDigit = true := by
      intro c hc
      rcases List.mem_cons.1 hc with rfl | hc
      · exact hd
      · exact h c hc
    unfold Nat.toDigitsCore
    simp only
    split
    · exact hds
    · exact ih _ _ hds

theorem repr_isDigit (n : Nat) : ∀ c ∈ (Nat.repr n).toList, c.isDigit = true := by
  simp only [Nat.repr, Nat.toDigits, String.toList, List.asString]
  exact toDigitsCore_isDigit _ _ _ (by simp)

theorem toString_nonneg (b : Int) (h : 0 ≤ b) : toString b = Nat.repr b.toNat := by
  obtain ⟨n, rfl⟩ := Int.eq_ofNat_of_zero_le h
  rfl

/-- C4: for `0 ≤ b < 1024`, `format_size b` is the decimal integer `b`, a
space and `B`, with no decimal point; `format_size 0 = "0 B"` and
`format_size 1023 = "1023 B"`. -/
theorem format_size_bytes :
    (∀ b : Int, 0 ≤ b → b < 1024 →
      format_size b = toString b ++ " B" ∧
      (∀ c ∈ (toString b).toList, c.isDigit = true) ∧
      '.' ∉ (format_size b).toList) ∧
    format_size 0 = "0 B" ∧ format_size 1023 = "1023 B" := by
  refine ⟨?_, by decide, by decide⟩
  intro b h0 h1
  have hd : to_double b = (b : ℚ) := to_double_exact b (by omega) (by omega)
  have hq : (b : ℚ) < 1024 := by exact_mod_cast h1
  have hf : format_size b = toString b ++ " B" := by
    simp only [format_size, hd, format_loop_small 4 (b : ℚ) 0 hq, units, if_true,
      String.append_assoc]
    rfl
  have hdig : ∀ c ∈ (toString b).toList, c.isDigit = true := by
    rw [toString_nonneg b h0]
    exact repr_isDigit _
  refine ⟨hf, hdig, ?_⟩
  rw [hf]
  intro hmem
  simp only [String.toList, String.data_append, List.mem_append] at hmem
  rcases hmem with hmem | hmem
  · have := hdig '.' hmem
    exact absurd this (by decide)
  · exact absurd hmem (by decide)

/-- Witness for C4: 512 bytes. -/
theorem format_size_bytes_witness :
    (0 : Int) ≤ 512 ∧ (512 : Int) < 1024 ∧
    (format_size 512 = toString (512 : Int) ++ " B" ∧
      (∀ c ∈ (toString (512 : Int)).toList, c.isDigit = true) ∧
      '.' ∉ (format_size 512).toList) :=
  ⟨by decide, by decide, format_size_bytes.1 512 (by decide) (by decide)⟩

/-! ## C5: larger sizes are scaled and printed with two decimals -/

theorem round_half_even_abs (y : ℚ) : |((round_half_even y : Int) : ℚ) - y| ≤ 1 / 2 := by
  unfold round_half_even
  have h1 := Int.floor_le y
  have h2 := Int.lt_floor_add_one y
  simp only
  split_ifs <;> (push_cast; rw [abs_le]; constructor <;> linarith)

theorem round_half_even_nonneg (y : ℚ) (h : 0 ≤ y) : 0 ≤ round_half_even y := by
  unfold round_half_even
  have h1 : 0 ≤ ⌊y⌋ := Int.floor_nonneg.2 h
  simp only
  split_ifs <;> omega

theorem format_loop_scaled (n : Nat) :
    ∀ (x : ℚ) (u j : Nat), j ≤ n → (1024 : ℚ) ^ j ≤ x → (j < n → x < 1024 ^ (j + 1)) →
      format_loop n x u = (x / 1024 ^ j, u + j) := by
  induction n with
  | zero =>
    intro x u j hj _ _
    have : j = 0 := by omega
    subst this
    simp [format_loop]
  | succ n ih =>
    intro x u j hj hlo hhi
    cases j with
    | zero =>
      have hx : x < 1024 := by simpa using hhi (by omega)
      rw [format_loop_small _ _ _ hx]
      simp
    | succ j =>
      have h1 : (1024 : ℚ) ≤ x := by
        have : (1024 : ℚ) ^ 1 ≤ 1024 ^ (j + 1) :=
          pow_le_pow_right₀ (by norm_num) (by omega)
        linarith
      rw [format_loop_step _ _ _ h1]
      have hlo2 : (1024 : ℚ) ^ j ≤ x / 1024 := by
        rw [le_div_iff₀ (by norm_num)]
        rw [pow_succ] at hlo
        exact hlo
      have hhi2 : j < n → x / 1024 < 1024 ^ (j + 1) := by
        intro hjn
        have := hhi (by omega)
        rw [div_lt_iff₀ (by norm_num)]
        rw [pow_succ] at this
        exact this
      rw [ih (x / 1024) (u + 1) j (by omega) hlo2 hhi2]
      congr 1
      · rw [pow_succ, div_div, mul_comm]
      · omega

theorem nat_repr_digit_length (d : Nat) (h : d < 10) : (toString d).length = 1 := by
  interval_cases d <;> decide

/-- C5: for `1024 ≤ b < 2^53`, `format_size b` uses the unit of index
`k = min 4 (log_1024 b)`, one of KB, MB, GB, TB; the scaled value `b / 1024^k`
is at least 1, and below 1024 unless `b ≥ 1024^5`, where the unit stays TB;
the number printed has two decimal digits and is within 0.005 of `b / 1024^k`.
`format_size 1024 = "1.00 KB"`, `format_size 1536 = "1.50 KB"` and
`format_size (5 * 1024 * 1024) = "5.00 MB"`. -/
theorem format_size_scaled :
    (∀ b : Int, 1024 ≤ b → b < 2 ^ 53 →
      ∃ (c k : Nat),
        k = min 4 (Nat.log 1024 b.toNat) ∧
        1 ≤ k ∧
        format_size b =
          toString (c / 100) ++ "." ++ toString (c % 100 / 10) ++ toString (c % 10) ++ " " ++
            units k ∧
        (toString (c % 100 / 10) ++ toString (c % 10)).length = 2 ∧
        |(c : ℚ) / 100 - (b : ℚ) / 1024 ^ k| ≤ 5 / 1000 ∧
        1 ≤ (b : ℚ) / 1024 ^ k ∧
        (b < 1024 ^ 5 → (b : ℚ) / 1024 ^ k < 1024) ∧
        (1024 ^ 5 ≤ b → k = 4)) ∧
    format_size 1024 = "1.00 KB" ∧ format_size 1536 = "1.50 KB" ∧
    format_size (5 * 1024 * 1024) = "5.00 MB" := by
  refine ⟨?_, ?_, ?_, ?_⟩
  · intro b h0 h1
    obtain ⟨n, rfl⟩ := Int.eq_ofNat_of_zero_le (show (0 : Int) ≤ b by omega)
    have hn0 : 1024 ≤ n := by exact_mod_cast h0
    have hlog : 1 ≤ Nat.log 1024 n := Nat.log_pos (by norm_num) hn0
    have hpow : 1024 ^ Nat.log 1024 n ≤ n := Nat.pow_log_le_self 1024 (by omega)
    have hlt : n < 1024 ^ (Nat.log 1024 n + 1) := Nat.lt_pow_succ_log_self (by norm_num) n
    set k := min 4 (Nat.log 1024 n) with hk
    have hk4 : k ≤ 4 := min_le_left _ _
    have hkl : k ≤ Nat.log 1024 n := min_le_right _ _
    have hk1 : 1 ≤ k := le_min (by norm_num) hlog
    have hlo : (1024 : ℚ) ^ k ≤ (n : ℚ) := by
      have : 1024 ^ k ≤ n := le_trans (Nat.pow_le_pow_right (by norm_num) hkl) hpow
      exact_mod_cast this
    have hhi : k < 4 → (n : ℚ) < 1024 ^ (k + 1) := by
      intro hlt4
      have : k = Nat.log 1024 n := by omega
      rw [this]
      exact_mod_cast hlt
    have hpos : (0 : ℚ) < 1024 ^ k := by positivity
    have hx1 : 1 ≤ (n : ℚ) / 1024 ^ k := by
      rw [le_div_iff₀ hpos]
      linarith
    have hd : to_double (n : Int) = (n : ℚ) := by
      have := to_double_exact (n : Int) (by omega) h1
      simpa using this
    have hloop := format_loop_scaled 4 (n : ℚ) 0 k hk4 hlo hhi
    have hk0 : ¬ (k = 0) := by omega
    have hneg : ¬ ((n : ℚ) / 1024 ^ k < 0) := by linarith
    have hr0 : 0 ≤ round_half_even ((n : ℚ) / 1024 ^ k * 100) :=
      round_half_even_nonneg _ (by positivity)
    have hrabs := round_half_even_abs ((n : ℚ) / 1024 ^ k * 100)
    refine ⟨(round_half_even ((n : ℚ) / 1024 ^ k * 100)).toNat, k, ?_, hk1, ?_, ?_, ?_, ?_, ?_, ?_⟩
    · simp [hk]
    · simp only [format_size, hd, hloop, Nat.zero_add, hk0, if_false, printf_2f, hneg,
        render_hundredths]
    · rw [String.length_append, nat_repr_digit_length _ (by omega),
        nat_repr_digit_length _ (by omega)]
    · have hc : (((round_half_even ((n : ℚ) / 1024 ^ k * 100)).toNat : Nat) : ℚ) =
          ((round_half_even ((n : ℚ) / 1024 ^ k * 100) : Int) : ℚ) := by
        have := Int.toNat_of_nonneg hr0
        exact_mod_cast this
      rw [hc]
      rw [abs_le] at hrabs ⊢
      simp only [Int.cast_natCast]
      constructor <;> linarith [hrabs.1, hrabs.2]
    · simpa using hx1
    · intro hb
      have hn5 : n < 1024 ^ 5 := by exact_mod_cast hb
      have hl5 : Nat.log 1024 n < 5 := Nat.log_lt_of_lt_pow (by omega) hn5
      have hkeq : k = Nat.log 1024 n := by omega
      have : (n : ℚ) < 1024 ^ (k + 1) := by
        rw [hkeq]
        exact_mod_cast hlt
      simp only [Int.cast_natCast]
      rw [div_lt_iff₀ hpos]
      rw [pow_succ] at this
      linarith
    · intro hb
      have hn5 : 1024 ^ 5 ≤ n := by exact_mod_cast hb
      have : 5 ≤ Nat.log 1024 n := Nat.le_log_of_pow_le (by norm_num) hn5
      omega
  · simp [format_size, to_double, format_loop, printf_2f, round_half_even, render_hundredths,
      units]
    norm_num
    decide
  · simp [format_size, to_double, format_loop, printf_2f, round_half_even, render_hundredths,
      units]
    norm_num
    decide
  · simp [format_size, to_double, format_loop, printf_2f, round_half_even, render_hundredths,
      units]
    norm_num
    decide

/-- Witness for C5: 123456789 bytes. -/
theorem format_size_scaled_witness :
    (1024 : Int) ≤ 123456789 ∧ (123456789 : Int) < 2 ^ 53 ∧
    ∃ (c k : Nat),
      k = min 4 (Nat.log 1024 (123456789 : Int).toNat) ∧
      1 ≤ k ∧
      format_size 123456789 =
        toString (c / 100) ++ "." ++ toString (c % 100 / 10) ++ toString (c % 10) ++ " " ++
          units k ∧
      (toString (c % 100 / 10) ++ toString (c % 10)).length = 2 ∧
      |(c : ℚ) / 100 - ((123456789 : Int) : ℚ) / 1024 ^ k| ≤ 5 / 1000 ∧
      1 ≤ ((123456789 : Int) : ℚ) / 1024 ^ k ∧
      ((123456789 : Int) : ℚ) / 1024 ^ k < 1024 :=
  ⟨by norm_num, by norm_num,
    let ⟨c, k, h1, h2, h3, h4, h5, h6, h7, _⟩ :=
      format_size_scaled.1 123456789 (by norm_num) (by norm_num)
    ⟨c, k, h1, h2, h3, h4, h5, h6, h7 (by norm_num)⟩⟩

/-! ## C6: display names -/

theorem mem_collected_of_row (alloc : Nat → Bool) (p : CString) (es : Listing) (limit : Int)
    (d : CString) (sz : String) (pc : ℚ)
    (h : Out.row d sz pc ∈ (analyze_directory alloc (some p) (some es) limit).stdout) :
    ∃ e ∈ collected p es, d = display_name e.path ∧ sz = format_size e.size := by
  unfold analyze_directory at h
  simp only at h
  split at h
  · simp at h
  · cases hscan : scan_loop alloc p es Scan.init with
    | error err => rw [hscan] at h; simp at h
    | ok s =>
      rw [hscan] at h
      obtain ⟨hcol, _, _⟩ := scan_init_ok alloc p es s hscan
      simp only [List.mem_cons, reduceCtorEq, false_or] at h
      have hf : Out.row d sz pc ∈ (report s limit).filter Out.is_row :=
        List.mem_filter.2 ⟨h, rfl⟩
      rw [rows_of_report] at hf
      split at hf
      · simp at hf
      · obtain ⟨e, he, hrow⟩ := List.mem_map.1 hf
        have he2 : e ∈ s.entries :=
          (qsort_perm s.entries).mem_iff.1 (List.mem_of_mem_take he)
        simp only [row_of, Out.row.injEq] at hrow
        exact ⟨e, hcol ▸ he2, hrow.1.symm, hrow.2.1.symm⟩

/-- C6: the display name built from an entry name is its first 44 characters
followed by `...`, 47 characters in all, when the name is longer than 47
characters, and the name itself otherwise, so it never exceeds 50 characters;
every row `analyze_directory` prints carries the display name of a collected
entry; a name of 60 characters becomes its 44-character prefix and `...`. -/
theorem display_name_truncation :
    (∀ name : CString,
      (47 < name.length →
        display_name (name.take (MAX_PATH - 1)) = name.take 44 ++ ['.', '.', '.'] ∧
        (display_name (name.take (MAX_PATH - 1))).length = 47) ∧
      (name.length ≤ 47 → display_name (name.take (MAX_PATH - 1)) = name) ∧
      (display_name (name.take (MAX_PATH - 1))).length ≤ 50) ∧
    (∀ (alloc : Nat → Bool) (p : CString) (es : Listing) (limit : Int)
        (d : CString) (sz : String) (pc : ℚ),
      Out.row d sz pc ∈ (analyze_directory alloc (some p) (some es) limit).stdout →
      ∃ e ∈ collected p es,
        d = (if 47 < e.path.length then e.path.take 44 ++ ['.', '.', '.'] else e.path) ∧
        d.length ≤ 50) ∧
    display_name ((List.replicate 60 'n').take (MAX_PATH - 1)) =
      List.replicate 44 'n' ++ ['.', '.', '.'] := by
  have key : ∀ name : CString,
      display_name name = (if 47 < name.length then name.take 44 ++ ['.', '.', '.'] else name) ∧
      (display_name name).length ≤ 47 := by
    intro name
    unfold display_name
    by_cases h : 47 < name.length
    · simp only [gt_iff_lt, h, if_true, List.length_append, List.length_take, true_and]
      simp
    · have h50 : name.take 50 = name := List.take_of_length_le (by omega)
      simp only [gt_iff_lt, h, if_false, h50, true_and]
      omega
  refine ⟨?_, ?_, by decide⟩
  · intro name
    refine ⟨fun h => ?_, fun h => ?_, ?_⟩
    · have hl : 47 < (name.take (MAX_PATH - 1)).length := by
        simp only [List.length_take, MAX_PATH]
        omega
      have ht : (name.take (MAX_PATH - 1)).take 44 = name.take 44 := by
        rw [List.take_take]
        simp [MAX_PATH]
      rw [(key _).1, if_pos hl, ht]
      refine ⟨rfl, ?_⟩
      simp only [List.length_append, List.length_take, List.length_cons, List.length_nil]
      omega
    · have ht : name.take (MAX_PATH - 1) = name :=
        List.take_of_length_le (by simp only [MAX_PATH]; omega)
      rw [ht, (key name).1, if_neg (by omega)]
    · have := (key (name.take (MAX_PATH - 1))).2
      omega
  · intro alloc p es limit d sz pc h
    obtain ⟨e, he, hd, _⟩ := mem_collected_of_row alloc p es limit d sz pc h
    refine ⟨e, he, ?_, ?_⟩
    · rw [hd]; exact (key e.path).1
    · rw [hd]
      have := (key e.path).2
      omega

/-- Witness for C6: a name of 48 characters, and the rows printed for a
directory holding one file of that name. -/
theorem display_name_truncation_witness :
    47 < (List.replicate 48 'n').length ∧
    (display_name ((List.replicate 48 'n').take (MAX_PATH - 1)) =
        (List.replicate 48 'n').take 44 ++ ['.', '.', '.'] ∧
      (display_name ((List.replicate 48 'n').take (MAX_PATH - 1))).length = 47) ∧
    Out.row (List.replicate 44 'n' ++ ['.', '.', '.']) "5 B" (percent_of 5 5) ∈
      (analyze_directory (fun _ => true) (some ['/', 'r'])
        (some (.entry (List.replicate 48 'n') (some ⟨.reg, 5⟩) false .eof .eof)) 0).stdout ∧
    ∃ e ∈ collected ['/', 'r'] (.entry (List.replicate 48 'n') (some ⟨.reg, 5⟩) false .eof .eof),
      List.replicate 44 'n' ++ ['.', '.', '.'] =
        (if 47 < e.path.length then e.path.take 44 ++ ['.', '.', '.'] else e.path) ∧
      (List.replicate 44 'n' ++ ['.', '.', '.']).length ≤ 50 :=
  have hrow : Out.row (List.replicate 44 'n' ++ ['.', '.', '.']) "5 B" (percent_of 5 5) ∈
      (analyze_directory (fun _ => true) (some ['/', 'r'])
        (some (.entry (List.replicate 48 'n') (some ⟨.reg, 5⟩) false .eof .eof)) 0).stdout := by
    simp [analyze_directory, scan_loop, is_dot, path_len, compose, MAX_PATH, Scan.init, S_ISDIR,
      report, qsort, display_count, row_of, display_name, wrap64]
    decide
  ⟨by decide, (display_name_truncation.1 (List.replicate 48 'n')).1 (by decide), hrow,
    display_name_truncation.2.1 (fun _ => true) ['/', 'r']
      (.entry (List.replicate 48 'n') (some ⟨.reg, 5⟩) false .eof .eof) 0 _ _ _ hrow⟩

/-! ## C7: recorded sizes and grand total -/

theorem sum64_modEq (l : List DirEntry) :
    ∀ t : Int, sum64 t l ≡ t + (l.map DirEntry.size).sum [ZMOD 2 ^ 64] := by
  induction l with
  | nil => intro t; simp [sum64, Int.ModEq]
  | cons e l ih =>
    intro t
    have h1 := ih (wrap64 (t + e.size))
    have h2 := wrap64_modEq (t + e.size)
    rw [sum64_cons]
    simp only [List.map_cons, List.sum_cons, Int.ModEq] at h1 h2 ⊢
    omega

theorem sum64_range (l : List DirEntry) :
    ∀ t : Int, -2 ^ 63 ≤ t → t < 2 ^ 63 → -2 ^ 63 ≤ sum64 t l ∧ sum64 t l < 2 ^ 63 := by
  induction l with
  | nil => intro t h1 h2; exact ⟨h1, h2⟩
  | cons e l ih =>
    intro t _ _
    rw [sum64_cons]
    exact ih _ (wrap64_range _).1 (wrap64_range _).2

/-- C7 (as stated) fails: with four regular files of `2^62` bytes at the top
level the recorded sizes sum to `2^64`, and the grand total printed is
`0 B`. -/
theorem analyze_directory_total_counterexample :
    ((collected ['/', 'r'] four_huge_files).map DirEntry.size).sum = 2 ^ 64 ∧
    Out.total "0 B" ∈
      (analyze_directory (fun _ => true) (some ['/', 'r']) (some four_huge_files) 0).stdout := by
  refine ⟨by decide, ?_⟩
  have hscan : scan_loop (fun _ => true) ['/', 'r'] four_huge_files Scan.init =
      .ok ⟨[⟨['a'], 2 ^ 62⟩, ⟨['b'], 2 ^ 62⟩, ⟨['c'], 2 ^ 62⟩, ⟨['d'], 2 ^ 62⟩], 4, 16, 0, []⟩ :=
    rfl
  rw [analyze_directory_ok _ _ _ _ _ rfl hscan]
  have h0 : format_size 0 = "0 B" := by decide
  simp [report, h0]

/-- C7 (amended): the entries `analyze_directory` collects are the immediate
children that are not skipped, each with size `calculate_dir_size(child, 0)`
for a directory and the `lstat`-reported `st_size` otherwise; the grand total
printed is the sum of the recorded sizes reduced to the range of `long long`,
hence that sum whenever it lies in the range.  At the top level an entry that
is neither a directory nor a regular file counts its `st_size`, while inside a
subdirectory it counts 0. -/
theorem analyze_directory_recorded_sizes :
    (∀ (alloc : Nat → Bool) (p : CString) (es : Listing) (limit : Int) (s : Scan),
      alloc 16 = true → scan_loop alloc p es Scan.init = .ok s →
      s.entries = collected p es ∧
      Out.total (format_size s.total_size) ∈
        (analyze_directory alloc (some p) (some es) limit).stdout ∧
      s.total_size ≡ (s.entries.map DirEntry.size).sum [ZMOD 2 ^ 64] ∧
      (-2 ^ 63 ≤ (s.entries.map DirEntry.size).sum → (s.entries.map DirEntry.size).sum < 2 ^ 63 →
        s.total_size = (s.entries.map DirEntry.size).sum)) ∧
    (∀ (p d_name : CString) (t : FileType) (st_size : Int) (opens : Bool) (sub : Listing),
      is_dot d_name = false → path_len p d_name < MAX_PATH →
      S_ISDIR t = false → S_ISREG t = false →
      collected p (.entry d_name (some ⟨t, st_size⟩) opens sub .eof) = [⟨d_name, st_size⟩] ∧
      (calculate_dir_size (some p) (some (.entry d_name (some ⟨t, st_size⟩) opens sub .eof))
        false).1 = 0) := by
  refine ⟨?_, ?_⟩
  · intro alloc p es limit s hmem hscan
    obtain ⟨hcol, _, htotal⟩ := scan_init_ok alloc p es s hscan
    have hmod := sum64_modEq s.entries 0
    have hrange := sum64_range s.entries 0 (by norm_num) (by norm_num)
    rw [← htotal] at hmod hrange
    refine ⟨hcol, ?_, ?_, ?_⟩
    · rw [analyze_directory_ok alloc p es limit s hmem hscan]
      by_cases h : s.entry_count = 0 <;> simp [report, h]
    · simpa using hmod
    · intro h1 h2
      simp only [Int.ModEq] at hmod
      omega
  · intro p d_name t st_size opens sub hd hl hdir hreg
    have hl2 : ¬ path_len p d_name ≥ MAX_PATH := by omega
    constructor
    · simp [collected, hd, hl2, hdir]
    · simp [calculate_dir_size, dir_loop, hd, hl2, hdir, hreg]

/-- Witness for C7 (amended): the sample tree analyzed at the top level. -/
theorem analyze_directory_recorded_sizes_witness :
    scan_loop (fun _ => true) ['/', 'r'] sample_tree Scan.init =
      .ok ⟨[⟨['a'], 300⟩, ⟨['d'], 150⟩, ⟨['s'], 11⟩, ⟨['c'], 200⟩], 4, 16, 661, []⟩ ∧
    collected ['/', 'r'] sample_tree =
      [⟨['a'], 300⟩, ⟨['d'], 150⟩, ⟨['s'], 11⟩, ⟨['c'], 200⟩] ∧
    Out.total (format_size 661) ∈
      (analyze_directory (fun _ => true) (some ['/', 'r']) (some sample_tree) 0).stdout ∧
    (661 : Int) = ([⟨['a'], 300⟩, ⟨['d'], 150⟩, ⟨['s'], 11⟩, ⟨['c'], 200⟩].map DirEntry.size).sum :=
  let h := analyze_directory_recorded_sizes.1 (fun _ => true) ['/', 'r'] sample_tree 0
    ⟨[⟨['a'], 300⟩, ⟨['d'], 150⟩, ⟨['s'], 11⟩, ⟨['c'], 200⟩], 4, 16, 661, []⟩ rfl rfl
  ⟨rfl, h.1.symm, h.2.1, h.2.2.2 (by decide) (by decide)⟩

/-! ## C8: what `calculate_dir_size` skips -/

theorem dir_loop_append (path : CString) (sd : Bool) (a b : Listing) :
    ∀ acc : Int × List Diag,
      dir_loop path sd (a.append b) acc = dir_loop path sd b (dir_loop path sd a acc) := by
  induction a with
  | eof => intro acc; rfl
  | entry d_name st opens sub rest _ ih =>
    intro acc
    simp only [Listing.append, dir_loop]
    by_cases hd : is_dot d_name = true
    · simp only [hd, if_true]
      exact ih acc
    · by_cases hl : path_len path d_name ≥ MAX_PATH
      · simp only [hd, hl, if_true, if_false]
        exact ih _
      · cases st with
        | none =>
          simp only [hd, hl, if_false]
          exact ih _
        | some statbuf =>
          by_cases hdir : S_ISDIR statbuf.st_mode = true
          · simp only [hd, hl, hdir, if_true, if_false]
            exact ih _
          · by_cases hreg : S_ISREG statbuf.st_mode = true
            · simp only [hd, hl, hdir, hreg, if_true, if_false]
              exact ih _
            · simp only [hd, hl, hdir, hreg, if_false]
              exact ih _

theorem dir_loop_total_congr (path : CString) (sd : Bool) (es : Listing) :
    ∀ acc acc2 : Int × List Diag, acc.1 = acc2.1 →
      (dir_loop path sd es acc).1 = (dir_loop path sd es acc2).1 := by
  induction es with
  | eof => intro acc acc2 h; exact h
  | entry d_name st opens sub rest _ ih =>
    intro acc acc2 h
    unfold dir_loop
    split
    · exact ih acc acc2 h
    · split
      · exact ih _ _ h
      · split
        · exact ih _ _ h
        · split
          · exact ih _ _ (by simp only [h])
          · split
            · exact ih _ _ (by simp only [h])
            · exact ih acc acc2 h

theorem dir_loop_skip (path : CString) (sd : Bool) (d_name : CString) (st : Option Stat)
    (opens : Bool) (sub rest : Listing) (acc : Int × List Diag)
    (hskip : is_skipped path d_name st opens = true)
    (h1 : -2 ^ 63 ≤ acc.1) (h2 : acc.1 < 2 ^ 63) :
    (dir_loop path sd (.entry d_name st opens sub rest) acc).1 =
      (dir_loop path sd rest acc).1 := by
  simp only [dir_loop]
  by_cases hd : is_dot d_name = true
  · simp only [hd, if_true]
  · by_cases hl : path_len path d_name ≥ MAX_PATH
    · simp only [hd, hl, if_true, if_false]
      exact dir_loop_total_congr path sd rest _ _ rfl
    · simp only [is_skipped, hl, decide_False, Bool.false_or] at hskip
      cases st with
      | none =>
        simp only [hd, hl, if_false]
        exact dir_loop_total_congr path sd rest _ _ rfl
      | some statbuf =>
        simp only [Bool.and_eq_true, Bool.not_eq_true'] at hskip
        simp only [hd, hl, hskip.1, hskip.2, if_true, if_false, Bool.false_eq_true]
        exact dir_loop_total_congr path sd rest _ _
          (by simp only [add_zero]; exact wrap64_of_range _ h1 h2)

/-- C8: `calculate_dir_size` returns 0, with at most a warning, when the path
is NULL or cannot be opened; inside a directory that opens, an entry whose
composed path does not fit in `MAX_PATH`, that cannot be stat-ed, or that is a
directory which cannot be opened, contributes nothing: the result is that of
the same directory without this entry, all other entries being counted. -/
theorem calculate_dir_size_skips :
    (∀ (dir : Option Listing) (show_details : Bool),
      calculate_dir_size none dir show_details = (0, [])) ∧
    (∀ (p : CString) (show_details : Bool),
      calculate_dir_size (some p) none show_details =
        (0, if show_details then [Diag.warn_cannot_open p] else [])) ∧
    (∀ (p : CString) (show_details : Bool) (before after : Listing) (d_name : CString)
        (st : Option Stat) (opens : Bool) (sub : Listing),
      is_skipped p d_name st opens = true →
      (calculate_dir_size (some p)
          (some (before.append (.entry d_name st opens sub after))) show_details).1 =
        (calculate_dir_size (some p) (some (before.append after)) show_details).1) := by
  refine ⟨fun _ _ => rfl, fun _ _ => rfl, ?_⟩
  intro p sd before after d_name st opens sub hskip
  simp only [calculate_dir_size, dir_loop_append]
  have hr := dir_loop_range p sd before (0, []) (by norm_num) (by norm_num)
  exact dir_loop_skip p sd d_name st opens sub after _ hskip hr.1 hr.2

/-- Witness for C8: a directory that cannot be opened, between two regular
files of 300 and 200 bytes. -/
theorem calculate_dir_size_skips_witness :
    is_skipped ['/', 'r'] ['d'] (some ⟨.dir, 4096⟩) false = true ∧
    (calculate_dir_size (some ['/', 'r'])
        (some ((file_entry "a" 300 .eof).append
          (.entry ['d'] (some ⟨.dir, 4096⟩) false (file_entry "x" 100 .eof)
            (file_entry "c" 200 .eof)))) true).1 =
      (calculate_dir_size (some ['/', 'r'])
        (some ((file_entry "a" 300 .eof).append (file_entry "c" 200 .eof))) true).1 ∧
    (calculate_dir_size (some ['/', 'r'])
        (some ((file_entry "a" 300 .eof).append (file_entry "c" 200 .eof))) true).1 = 500 :=
  ⟨by decide,
    calculate_dir_size_skips.2.2 ['/', 'r'] true (file_entry "a" 300 .eof)
      (file_entry "c" 200 .eof) ['d'] (some ⟨.dir, 4096⟩) false (file_entry "x" 100 .eof)
      (by decide),
    by decide⟩

/-! ## C9: percentages -/

theorem mem_entries_of_row (alloc : Nat → Bool) (p : CString) (es : Listing) (limit : Int)
    (s : Scan) (hmem : alloc 16 = true) (hscan : scan_loop alloc p es Scan.init = .ok s)
    (d : CString) (sz : String) (pc : ℚ)
    (h : Out.row d sz pc ∈ (analyze_directory alloc (some p) (some es) limit).stdout) :
    ∃ e ∈ s.entries, Out.row d sz pc = row_of s.total_size e := by
  rw [analyze_directory_ok alloc p es limit s hmem hscan] at h
  simp only [List.mem_cons, reduceCtorEq, false_or] at h
  have hf : Out.row d sz pc ∈ (report s limit).filter Out.is_row :=
    List.mem_filter.2 ⟨h, rfl⟩
  rw [rows_of_report] at hf
  split at hf
  · simp at hf
  · obtain ⟨e, he, hrow⟩ := List.mem_map.1 hf
    exact ⟨e, (qsort_perm s.entries).mem_iff.1 (List.mem_of_mem_take he), hrow.symm⟩

theorem percent_sum_rows (t : Int) (ht : 0 < t) (l : List DirEntry) :
    percent_sum (l.map (row_of t)) = ((l.map DirEntry.size).sum : Int) / (t : ℚ) * 100 := by
  induction l with
  | nil => simp [percent_sum]
  | cons e l ih =>
    simp only [percent_sum, List.map_cons, List.sum_cons] at ih ⊢
    rw [ih]
    simp only [row_of, Out.percent, percent_of, ht, if_true]
    push_cast
    ring

theorem percent_sum_report (s : Scan) (limit : Int) (p : CString) (h0 : s.entry_count ≠ 0) :
    percent_sum (Out.analyzing p :: Out.scanning :: report s limit) =
      percent_sum (((qsort compare_entries s.entries).take
        (display_count limit s.entry_count)).map (row_of s.total_size)) := by
  have hpos : s.entry_count > 0 := Nat.pos_of_ne_zero h0
  simp [percent_sum, report, h0, hpos, Out.percent]

/-- C9 (as stated) fails: with four regular files of `2^62` bytes and one of
1 byte the grand total is 1, which is positive, all rows are shown, and the
exact percentages sum to `100 * (2^64 + 1)`. -/
theorem analyze_directory_percent_counterexample :
    scan_loop (fun _ => true) ['/', 'r'] five_files Scan.init =
      .ok ⟨[⟨['a'], 2 ^ 62⟩, ⟨['b'], 2 ^ 62⟩, ⟨['c'], 2 ^ 62⟩, ⟨['d'], 2 ^ 62⟩, ⟨['e'], 1⟩],
        5, 16, 1, []⟩ ∧
    percent_sum (analyze_directory (fun _ => true) (some ['/', 'r']) (some five_files) 0).stdout =
      100 * (2 ^ 64 + 1) := by
  have hscan : scan_loop (fun _ => true) ['/', 'r'] five_files Scan.init =
      .ok ⟨[⟨['a'], 2 ^ 62⟩, ⟨['b'], 2 ^ 62⟩, ⟨['c'], 2 ^ 62⟩, ⟨['d'], 2 ^ 62⟩, ⟨['e'], 1⟩],
        5, 16, 1, []⟩ := by
    simp [scan_loop, five_files, file_entry, is_dot, path_len, compose, MAX_PATH, Scan.init,
      S_ISDIR, wrap64]
  refine ⟨hscan, ?_⟩
  rw [analyze_directory_ok _ _ _ _ _ rfl hscan, percent_sum_report _ _ _ (by decide)]
  have hq : qsort compare_entries
      [⟨['a'], 2 ^ 62⟩, ⟨['b'], 2 ^ 62⟩, ⟨['c'], 2 ^ 62⟩, ⟨['d'], 2 ^ 62⟩, ⟨['e'], 1⟩] =
      [⟨['a'], 2 ^ 62⟩, ⟨['b'], 2 ^ 62⟩, ⟨['c'], 2 ^ 62⟩, ⟨['d'], 2 ^ 62⟩, ⟨['e'], 1⟩] := by
    decide
  have hk : display_count 0 5 = 5 := by decide
  simp only [hq, hk, List.take, percent_sum_rows 1 (by norm_num)]
  norm_num

/-- C9 (amended): every row `analyze_directory` prints shows, for some
collected entry, `size / total * 100` when the grand total is positive and 0
when it is not, so no division by zero takes place; when the grand total is
positive, all rows are shown and the sum of the collected sizes lies in the
range of `long long`, the exact percentages sum to 100. -/
theorem analyze_directory_percent :
    ∀ (alloc : Nat → Bool) (p : CString) (es : Listing) (limit : Int) (s : Scan),
      alloc 16 = true → scan_loop alloc p es Scan.init = .ok s →
      (∀ (d : CString) (sz : String) (pc : ℚ),
        Out.row d sz pc ∈ (analyze_directory alloc (some p) (some es) limit).stdout →
        ∃ e ∈ s.entries,
          (0 < s.total_size → pc = 100 * (e.size : ℚ) / (s.total_size : ℚ)) ∧
          (s.total_size ≤ 0 → pc = 0)) ∧
      (0 < s.total_size → (limit ≤ 0 ∨ (s.entries.length : Int) ≤ limit) →
        -2 ^ 63 ≤ (s.entries.map DirEntry.size).sum →
        (s.entries.map DirEntry.size).sum < 2 ^ 63 →
        percent_sum (analyze_directory alloc (some p) (some es) limit).stdout = 100) := by
  intro alloc p es limit s hmem hscan
  obtain ⟨_, hcount, htotal⟩ := scan_init_ok alloc p es s hscan
  refine ⟨?_, ?_⟩
  · intro d sz pc h
    obtain ⟨e, he, hrow⟩ := mem_entries_of_row alloc p es limit s hmem hscan d sz pc h
    simp only [row_of, Out.row.injEq] at hrow
    refine ⟨e, he, fun hpos => ?_, fun hle => ?_⟩
    · rw [hrow.2.2]
      simp only [percent_of, hpos, if_true]
      ring
    · rw [hrow.2.2]
      have : ¬ s.total_size > 0 := by omega
      simp only [percent_of, this, if_false]
  · intro hpos hall hlo hhi
    have hmod := sum64_modEq s.entries 0
    have hrange := sum64_range s.entries 0 (by norm_num) (by norm_num)
    rw [← htotal] at hmod hrange
    have hsum : s.total_size = (s.entries.map DirEntry.size).sum := by
      simp only [Int.ModEq] at hmod
      omega
    have hne : s.entry_count ≠ 0 := by
      intro h0
      have : s.entries = [] := List.length_eq_zero.1 (by omega)
      rw [this] at hsum
      simp at hsum
      omega
    have hk : display_count limit s.entry_count = s.entry_count := by
      rw [display_count_eq, hcount]
      split <;> omega
    have hlen : (qsort compare_entries s.entries).length = s.entry_count := by
      rw [(qsort_perm s.entries).length_eq, hcount]
    rw [analyze_directory_ok alloc p es limit s hmem hscan, percent_sum_report _ _ _ hne, hk,
      ← hlen, List.take_length, percent_sum_rows _ hpos,
      ((qsort_perm s.entries).map DirEntry.size).sum_eq, ← hsum]
    have : (s.total_size : ℚ) ≠ 0 := by
      have : (0 : ℚ) < s.total_size := by exact_mod_cast hpos
      exact ne_of_gt this
    field_simp

/-- Witness for C9 (amended): the directory with children of 300, 100 and 200
bytes, all rows shown. -/
theorem analyze_directory_percent_witness :
    scan_loop (fun _ => true) ['/', 'r'] sample_sizes Scan.init =
      .ok ⟨[⟨['a'], 300⟩, ⟨['b'], 100⟩, ⟨['c'], 200⟩], 3, 16, 600, []⟩ ∧
    percent_sum (analyze_directory (fun _ => true) (some ['/', 'r']) (some sample_sizes) 0).stdout
      = 100 :=
  ⟨rfl,
    (analyze_directory_percent (fun _ => true) ['/', 'r'] sample_sizes 0
      ⟨[⟨['a'], 300⟩, ⟨['b'], 100⟩, ⟨['c'], 200⟩], 3, 16, 600, []⟩ rfl rfl).2
      (by decide) (Or.inl (le_refl 0)) (by simp) (by simp)⟩

/-! ## C10: a directory with no collected entry -/

theorem scan_loop_of_collected_nil (alloc : Nat → Bool) (path : CString) (es : Listing)
    (h : collected path es = []) :
    ∀ s : Scan, ∃ err : List Diag, scan_loop alloc path es s = .ok { s with err := err } := by
  induction es with
  | eof => intro s; exact ⟨s.err, rfl⟩
  | entry d_name st opens sub rest _ ih =>
    intro s
    simp only [collected] at h
    simp only [scan_loop]
    by_cases hd : is_dot d_name = true
    · simp only [hd, if_true] at h ⊢
      exact ih h s
    · by_cases hl : path_len path d_name ≥ MAX_PATH
      · simp only [hd, hl, if_true, if_false] at h ⊢
        obtain ⟨err, he⟩ := ih h { s with err := s.err ++ [Diag.warn_path_too_long path d_name] }
        exact ⟨err, he⟩
      · cases st with
        | none =>
          simp only [hd, hl, if_false] at h ⊢
          exact ih h s
        | some statbuf =>
          simp only [hd, hl, if_false] at h
          exact absurd h (by simp)

/-- C10: when no entry is collected from the directory (it is empty, or every
entry is skipped), `analyze_directory` prints the two opening lines, the grand
total `0 B` and `No entries found.`, with no header and no row, and `main`
returns 0. -/
theorem analyze_directory_no_entries :
    (∀ (alloc : Nat → Bool) (p : CString) (es : Listing) (limit : Int),
      alloc 16 = true → collected p es = [] →
      (analyze_directory alloc (some p) (some es) limit).stdout =
        [Out.analyzing p, Out.scanning, Out.total "0 B", Out.no_entries]) ∧
    (∀ (alloc : Nat → Bool) (p : CString) (limit : Int),
      alloc 16 = true →
      (analyze_directory alloc (some p) (some .eof) limit).stdout =
        [Out.analyzing p, Out.scanning, Out.total "0 B", Out.no_entries]) ∧
    (∀ (env : Env) (program_name : CString) (opts : List GetOpt) (positional : Option CString)
        (limit : Int) (st : Stat) (es : Listing),
      parse_options program_name opts 0 = .ok limit →
      env.stat (positional.getD ['.']) = some st → S_ISDIR st.st_mode = true →
      env.alloc 16 = true →
      env.opendir ((env.realpath (positional.getD ['.'])).getD (positional.getD ['.'])) =
        some es →
      collected ((env.realpath (positional.getD ['.'])).getD (positional.getD ['.'])) es = [] →
      (main env program_name opts positional).1 = 0 ∧
      (main env program_name opts positional).2.stdout =
        [Out.analyzing ((env.realpath (positional.getD ['.'])).getD (positional.getD ['.'])),
          Out.scanning, Out.total "0 B", Out.no_entries]) := by
  have h0 : format_size 0 = "0 B" := by decide
  have key : ∀ (alloc : Nat → Bool) (p : CString) (es : Listing) (limit : Int),
      alloc 16 = true → collected p es = [] →
      (analyze_directory alloc (some p) (some es) limit).stdout =
        [Out.analyzing p, Out.scanning, Out.total "0 B", Out.no_entries] := by
    intro alloc p es limit hmem hcol
    obtain ⟨err, hscan⟩ := scan_loop_of_collected_nil alloc p es hcol Scan.init
    rw [analyze_directory_ok alloc p es limit _ hmem hscan]
    simp [report, Scan.init, h0]
  refine ⟨key, fun alloc p limit hmem => key alloc p .eof limit hmem rfl, ?_⟩
  intro env program_name opts positional limit st es hparse hstat hdir hmem hopen hcol
  unfold main
  simp only [hparse, hstat, hdir]
  cases hreal : env.realpath (positional.getD ['.']) with
  | none =>
    rw [hreal] at hopen hcol
    simp only [Option.getD_none] at hopen hcol ⊢
    rw [hopen]
    exact ⟨rfl, key _ _ _ _ hmem hcol⟩
  | some abs_path =>
    rw [hreal] at hopen hcol
    simp only [Option.getD_some] at hopen hcol ⊢
    rw [hopen]
    exact ⟨rfl, key _ _ _ _ hmem hcol⟩

/-- Witness for C10: the program run without arguments on a directory whose
only entry besides `.` and `..` cannot be stat-ed. -/
theorem analyze_directory_no_entries_witness :
    parse_options ['d', 'u'] [] 0 = .ok 0 ∧
    sample_env.stat ((none : Option CString).getD ['.']) = some ⟨.dir, 4096⟩ ∧
    collected ['.'] (.entry ['.'] (some ⟨.dir, 4096⟩) true .eof <|
        .entry ['.', '.'] (some ⟨.dir, 4096⟩) true .eof <|
        .entry ['g'] none false .eof .eof) = [] ∧
    (main sample_env ['d', 'u'] [] none).1 = 0 ∧
    (main sample_env ['d', 'u'] [] none).2.stdout =
      [Out.analyzing ['.'], Out.scanning, Out.total "0 B", Out.no_entries] :=
  ⟨rfl, rfl, by decide,
    analyze_directory_no_entries.2.2 sample_env ['d', 'u'] [] none 0 ⟨.dir, 4096⟩
      (.entry ['.'] (some ⟨.dir, 4096⟩) true .eof <|
        .entry ['.', '.'] (some ⟨.dir, 4096⟩) true .eof <|
        .entry ['g'] none false .eof .eof) rfl rfl rfl rfl rfl (by decide)⟩

/-! ## C11: warnings for skipped entries -/

/-- C11 (code at the failing input): for a directory whose entry `g` cannot be
stat-ed, `analyze_directory` skips `g`, goes on to the next entry `a`, and
writes nothing to `stderr`. -/
theorem analyze_directory_stat_failure_silent :
    collected ['/', 'r'] stat_failure_dir = [⟨['a'], 300⟩] ∧
    (analyze_directory (fun _ => true) (some ['/', 'r']) (some stat_failure_dir) 0).stderr = [] ∧
    (analyze_directory (fun _ => true) (some ['/', 'r']) (some stat_failure_dir) 0).stdout =
      [Out.analyzing ['/', 'r'], Out.scanning, Out.total "300 B", Out.header,
        Out.row ['a'] "300 B" (percent_of 300 300)] := by
  refine ⟨by decide, by decide, ?_⟩
  simp [analyze_directory, scan_loop, stat_failure_dir, file_entry, is_dot, path_len, compose,
    MAX_PATH, Scan.init, S_ISDIR, report, qsort, display_count, row_of, display_name, wrap64]
  decide


/-! ## C12: output of a fatal run -/

theorem scan_loop_error (alloc : Nat → Bool) (path : CString) (es : Listing) :
    ∀ (s : Scan) (err : List Diag), scan_loop alloc path es s = .error err →
      Diag.err_realloc ∈ err := by
  induction es with
  | eof => intro s err h; simp [scan_loop] at h
  | entry d_name st opens sub rest _ ih =>
    intro s err h
    simp only [scan_loop] at h
    by_cases hd : is_dot d_name = true
    · simp only [hd, if_true] at h
      exact ih s err h
    · by_cases hl : path_len path d_name ≥ MAX_PATH
      · simp only [hd, hl, if_true, if_false] at h
        exact ih _ err h
      · cases st with
        | none =>
          simp only [hd, hl, if_false] at h
          exact ih s err h
        | some statbuf =>
          simp only [hd, hl, if_false] at h
          generalize (if s.entry_count ≥ s.entry_capacity then s.entry_capacity * 2
            else s.entry_capacity) = cap at h
          by_cases hc : s.entry_count ≥ s.entry_capacity ∧ alloc cap = false
          · rw [if_pos hc] at h
            injection h with h
            rw [← h]
            simp
          · rw [if_neg hc] at h
            exact ih _ err h

/-- C12 (as stated) fails: with 17 regular files in the directory and an
allocator that grants 16 entries but not 32, `realloc` fails at the 17th entry;
the run is fatal, yet `Analyzing directory: /r` and `Scanning...` are on
`stdout`. -/
theorem analyze_directory_partial_output_counterexample :
    scan_loop (fun n => decide (n ≤ 16)) ['/', 'r'] (many_files 17) Scan.init =
      .error [Diag.err_realloc] ∧
    analyze_directory (fun n => decide (n ≤ 16)) (some ['/', 'r']) (some (many_files 17)) 0 =
      { stdout := [Out.analyzing ['/', 'r'], Out.scanning], stderr := [Diag.err_realloc] } := by
  have hscan : scan_loop (fun n => decide (n ≤ 16)) ['/', 'r'] (many_files 17) Scan.init =
      .error [Diag.err_realloc] := by
    simp [scan_loop, many_files, is_dot, path_len, compose, MAX_PATH, Scan.init, S_ISDIR,
      wrap64]
  refine ⟨hscan, ?_⟩
  simp [analyze_directory, hscan]

/-- C12 (amended): a run of `analyze_directory` that ends in a fatal condition
writes nothing to `stdout` when the path is NULL, when `malloc` fails or when
the directory cannot be opened; when `realloc` fails during the scan, `stdout`
holds the two opening lines and nothing else: no total, no header, no row.  In
each case an error is written to `stderr`. -/
theorem analyze_directory_fatal_output :
    (∀ (alloc : Nat → Bool) (dir : Option Listing) (limit : Int),
      analyze_directory alloc none dir limit =
        { stdout := [], stderr := [Diag.err_null_path] }) ∧
    (∀ (alloc : Nat → Bool) (p : CString) (dir : Option Listing) (limit : Int),
      alloc 16 = false →
      analyze_directory alloc (some p) dir limit =
        { stdout := [], stderr := [Diag.err_malloc] }) ∧
    (∀ (alloc : Nat → Bool) (p : CString) (limit : Int),
      alloc 16 = true →
      analyze_directory alloc (some p) none limit =
        { stdout := [], stderr := [Diag.err_cannot_open p] }) ∧
    (∀ (alloc : Nat → Bool) (p : CString) (es : Listing) (limit : Int) (err : List Diag),
      alloc 16 = true → scan_loop alloc p es Scan.init = .error err →
      analyze_directory alloc (some p) (some es) limit =
        { stdout := [Out.analyzing p, Out.scanning], stderr := err } ∧
      Diag.err_realloc ∈ err) := by
  refine ⟨fun _ _ _ => rfl, ?_, ?_, ?_⟩
  · intro alloc p dir limit h
    simp [analyze_directory, h]
  · intro alloc p limit h
    simp [analyze_directory, h]
  · intro alloc p es limit err h hscan
    refine ⟨by simp [analyze_directory, h, hscan], ?_⟩
    exact scan_loop_error alloc p es Scan.init err hscan


/-- Witness for C12 (amended): `realloc` failing at the 17th of 17 entries. -/
theorem analyze_directory_fatal_output_witness :
    (fun n => decide (n ≤ 16)) 16 = true ∧
    scan_loop (fun n => decide (n ≤ 16)) ['/', 'r'] (many_files 17) Scan.init =
      .error [Diag.err_realloc] ∧
    analyze_directory (fun n => decide (n ≤ 16)) (some ['/', 'r']) (some (many_files 17)) 3 =
      { stdout := [Out.analyzing ['/', 'r'], Out.scanning], stderr := [Diag.err_realloc] } ∧
    Diag.err_realloc ∈ [Diag.err_realloc] :=
  have hscan : scan_loop (fun n => decide (n ≤ 16)) ['/', 'r'] (many_files 17) Scan.init =
      .error [Diag.err_realloc] := by
    simp [scan_loop, many_files, is_dot, path_len, compose, MAX_PATH, Scan.init, S_ISDIR,
      wrap64]
  ⟨by decide, hscan,
    analyze_directory_fatal_output.2.2.2 (fun n => decide (n ≤ 16)) ['/', 'r'] (many_files 17) 3
      [Diag.err_realloc] (by decide) hscan⟩

/-! ## C13: exit status -/

theorem parse_options_error (program_name : CString) (opts : List GetOpt) :
    ∀ (limit : Int) (r : Int × Output), parse_options program_name opts limit = .error r →
      (r.1 = 0 ∨ r.1 = 1) ∧ (r.1 = 0 → GetOpt.h ∈ opts) := by
  induction opts with
  | nil => intro limit r h; simp [parse_options] at h
  | cons o rest ih =>
    intro limit r h
    cases o with
    | n optarg =>
      simp only [parse_options] at h
      by_cases hl : atoi optarg ≤ 0
      · rw [if_pos hl] at h
        injection h with h
        rw [← h]
        simp
      · rw [if_neg hl] at h
        obtain ⟨h1, h2⟩ := ih _ r h
        exact ⟨h1, fun h0 => List.mem_cons_of_mem _ (h2 h0)⟩
    | h =>
      simp only [parse_options] at h
      injection h with h
      rw [← h]
      simp
    | unknown =>
      simp only [parse_options] at h
      injection h with h
      rw [← h]
      simp

/-- C13 (code at the failing input): the target passes `stat` as a directory,
`opendir` fails inside `analyze_directory`, which reports the error and writes
no report; `main` returns 0. -/
theorem main_returns_zero_on_opendir_failure :
    unopenable_env.stat ['.'] = some ⟨.dir, 4096⟩ ∧
    unopenable_env.opendir ['.'] = none ∧
    main unopenable_env ['d', 'u'] [] none =
      (0, { stdout := [], stderr := [Diag.err_cannot_open ['.']] }) := by
  refine ⟨rfl, rfl, ?_⟩
  simp [main, parse_options, unopenable_env, S_ISDIR, analyze_directory]

/-- The exit status of `main` in every case: 1 when an argument of `-n` is not
positive or an option is unknown, when `stat` fails on the target and when the
target is not a directory; 0 with `-h` and whenever `analyze_directory` is
called, whether the scan completes (even with no entry) or not. -/
theorem main_exit_status :
    (∀ (env : Env) (program_name : CString) (opts : List GetOpt) (positional : Option CString)
        (r : Int × Output),
      parse_options program_name opts 0 = .error r →
      main env program_name opts positional = r ∧ (r.1 = 0 ∨ r.1 = 1) ∧
      (r.1 = 0 → GetOpt.h ∈ opts)) ∧
    (∀ (env : Env) (program_name : CString) (opts : List GetOpt) (positional : Option CString)
        (limit : Int),
      parse_options program_name opts 0 = .ok limit →
      (env.stat (positional.getD ['.']) = none →
        (main env program_name opts positional).1 = 1) ∧
      (∀ st : Stat, env.stat (positional.getD ['.']) = some st →
        S_ISDIR st.st_mode = false → (main env program_name opts positional).1 = 1) ∧
      (∀ st : Stat, env.stat (positional.getD ['.']) = some st →
        S_ISDIR st.st_mode = true →
        main env program_name opts positional =
          (0, analyze_directory env.alloc
            (some ((env.realpath (positional.getD ['.'])).getD (positional.getD ['.'])))
            (env.opendir ((env.realpath (positional.getD ['.'])).getD (positional.getD ['.'])))
            limit))) := by
  refine ⟨?_, ?_⟩
  · intro env program_name opts positional r h
    refine ⟨by simp [main, h], ?_⟩
    exact parse_options_error program_name opts 0 r h
  · intro env program_name opts positional limit h
    refine ⟨fun hs => by simp [main, h, hs], fun st hs hd => by simp [main, h, hs, hd],
      fun st hs hd => ?_⟩
    cases hr : env.realpath (positional.getD ['.']) <;> simp [main, h, hs, hd, hr]

/-- The exit status of `main` with no option and a target that is a directory
which cannot be opened. -/
theorem main_exit_status_unopenable :
    parse_options ['d', 'u'] [] 0 = .ok 0 ∧
    unopenable_env.stat ((none : Option CString).getD ['.']) = some ⟨.dir, 4096⟩ ∧
    main unopenable_env ['d', 'u'] [] none =
      (0, analyze_directory unopenable_env.alloc
        (some ((unopenable_env.realpath ((none : Option CString).getD ['.'])).getD
          ((none : Option CString).getD ['.'])))
        (unopenable_env.opendir
          ((unopenable_env.realpath ((none : Option CString).getD ['.'])).getD
            ((none : Option CString).getD ['.'])))
        0) :=
  ⟨rfl, rfl,
    (main_exit_status.2 unopenable_env ['d', 'u'] [] none 0 rfl).2.2 ⟨.dir, 4096⟩ rfl rfl⟩

/-! ## C15: the verbosity flag does not change the total -/

theorem dir_loop_quiet (path : CString) (es : Listing) :
    ∀ acc : Int × List Diag, (dir_loop path false es acc).2 = acc.2 := by
  induction es generalizing path with
  | eof => intro acc; rfl
  | entry d_name st opens sub rest ih_sub ih_rest =>
    intro acc
    unfold dir_loop
    split
    · exact ih_rest path acc
    · split
      · rw [ih_rest path _]
        simp
      · split
        · rw [ih_rest path _]
          simp
        · split
          · rw [ih_rest path _]
            cases opens with
            | true => simp [ih_sub (compose path d_name) (0, [])]
            | false => simp
          · split
            · rw [ih_rest path _]
            · exact ih_rest path acc

theorem dir_loop_verbosity (path : CString) (es : Listing) :
    ∀ acc acc2 : Int × List Diag, acc.1 = acc2.1 →
      (dir_loop path false es acc).1 = (dir_loop path true es acc2).1 := by
  induction es generalizing path with
  | eof => intro acc acc2 h; exact h
  | entry d_name st opens sub rest ih_sub ih_rest =>
    intro acc acc2 h
    simp only [dir_loop]
    by_cases hd : is_dot d_name = true
    · simp only [hd, if_true]
      exact ih_rest path acc acc2 h
    · by_cases hl : path_len path d_name ≥ MAX_PATH
      · simp only [hd, hl, if_true, if_false]
        exact ih_rest path _ _ h
      · cases st with
        | none =>
          simp only [hd, hl, if_false]
          exact ih_rest path _ _ h
        | some statbuf =>
          by_cases hdir : S_ISDIR statbuf.st_mode = true
          · simp only [hd, hl, hdir, if_true, if_false]
            cases opens with
            | true =>
              simp only [if_true]
              have hs := ih_sub (compose path d_name) (0, []) (0, []) rfl
              exact ih_rest path _ _ (by simp only [h, hs])
            | false =>
              simp only [Bool.false_eq_true, if_false]
              exact ih_rest path _ _ (by simp only [h])
          · by_cases hreg : S_ISREG statbuf.st_mode = true
            · simp only [hd, hl, hdir, hreg, if_true, if_false]
              exact ih_rest path _ _ (by simp only [h])
            · simp only [hd, hl, hdir, hreg, if_false]
              exact ih_rest path acc acc2 h

/-- C15: for every path and every tree, readable or not, `calculate_dir_size`
returns the same total with `show_details` 0 and 1; with 0 it writes nothing
to `stderr`. -/
theorem calculate_dir_size_verbosity :
    ∀ (path : Option CString) (dir : Option Listing),
      (calculate_dir_size path dir false).1 = (calculate_dir_size path dir true).1 ∧
      (calculate_dir_size path dir false).2 = [] := by
  intro path dir
  cases path with
  | none => exact ⟨rfl, rfl⟩
  | some p =>
    cases dir with
    | none => exact ⟨rfl, rfl⟩
    | some es =>
      refine ⟨dir_loop_verbosity p es (0, []) (0, []) rfl, ?_⟩
      simp only [calculate_dir_size]
      exact dir_loop_quiet p es (0, [])

/-! ## C19: the comparator -/

/-- C19: `compare_entries` returns -1, 0 or 1; swapping the arguments negates
the result; the result is 0 exactly when the sizes are equal and negative
exactly when the first size is the larger; it is transitive; it depends on the
sizes only; at the two ends of the `long long` range, where a subtraction would
overflow, the result is still the right sign. -/
theorem compare_entries_consistent :
    (∀ a b : DirEntry,
      (compare_entries a b = -1 ∨ compare_entries a b = 0 ∨ compare_entries a b = 1) ∧
      compare_entries a b = -compare_entries b a ∧
      (compare_entries a b = 0 ↔ a.size = b.size) ∧
      (compare_entries a b < 0 ↔ b.size < a.size) ∧
      (0 < compare_entries a b ↔ a.size < b.size)) ∧
    (∀ a b c : DirEntry,
      (compare_entries a b ≤ 0 → compare_entries b c ≤ 0 → compare_entries a c ≤ 0) ∧
      (compare_entries a b < 0 → compare_entries b c < 0 → compare_entries a c < 0) ∧
      (compare_entries a b = 0 → compare_entries b c = 0 → compare_entries a c = 0)) ∧
    (∀ a b a2 b2 : DirEntry, a.size = a2.size → b.size = b2.size →
      compare_entries a b = compare_entries a2 b2) ∧
    compare_entries ⟨['a'], 2 ^ 63 - 1⟩ ⟨['b'], -2 ^ 63⟩ = -1 ∧
    compare_entries ⟨['a'], -2 ^ 63⟩ ⟨['b'], 2 ^ 63 - 1⟩ = 1 := by
  refine ⟨?_, ?_, ?_, by decide, by decide⟩
  · intro a b
    simp only [compare_entries]
    refine ⟨?_, ?_, ?_, ?_, ?_⟩ <;> split_ifs <;> first | omega | (simp; omega)
  · intro a b c
    simp only [compare_entries]
    refine ⟨?_, ?_, ?_⟩ <;> split_ifs <;> first | omega | simp
  · intro a b a2 b2 ha hb
    simp only [compare_entries, ha, hb]

/-- Witness for C19: entries of sizes 300, 200 and 100. -/
theorem compare_entries_consistent_witness :
    compare_entries ⟨['a'], 300⟩ ⟨['b'], 200⟩ < 0 ∧
    compare_entries ⟨['b'], 200⟩ ⟨['c'], 100⟩ < 0 ∧
    compare_entries ⟨['a'], 300⟩ ⟨['c'], 100⟩ < 0 :=
  ⟨by decide, by decide,
    (compare_entries_consistent.2.1 ⟨['a'], 300⟩ ⟨['b'], 200⟩ ⟨['c'], 100⟩).2.1
      (by decide) (by decide)⟩

/-! ## C17: the argument of `-n` -/

/-- C17 (code at the failing input): `atoi` stops at the first character that
is not a digit, so `-n 5abc` sets `limit` to 5; the option loop reports no
error, the directory is scanned and `main` returns 0.  The arguments `0`, `-3`
and `abc` are rejected with status 1 before any scan. -/
theorem main_limit_trailing_characters :
    atoi "5abc".toList = 5 ∧
    parse_options ['d', 'u'] [GetOpt.n "5abc".toList] 0 = .ok 5 ∧
    main sample_env ['d', 'u'] [GetOpt.n "5abc".toList] none =
      (0, { stdout := [Out.analyzing ['.'], Out.scanning, Out.total "0 B", Out.no_entries],
            stderr := [] }) ∧
    main sample_env ['d', 'u'] [GetOpt.n "0".toList] none =
      (1, { stdout := [], stderr := [Diag.err_limit] }) ∧
    main sample_env ['d', 'u'] [GetOpt.n "-3".toList] none =
      (1, { stdout := [], stderr := [Diag.err_limit] }) ∧
    main sample_env ['d', 'u'] [GetOpt.n "abc".toList] none =
      (1, { stdout := [], stderr := [Diag.err_limit] }) := by
  refine ⟨by decide, ?_, ?_, ?_, ?_, ?_⟩
  · simp only [parse_options, show atoi "5abc".toList = 5 by decide]
    rfl
  · decide
  · decide
  · decide
  · decide

/-! ## C16: the collection after the scan loop -/

theorem scan_loop_append (alloc : Nat → Bool) (path : CString) (a b : Listing) :
    ∀ s : Scan, scan_loop alloc path (a.append b) s =
      match scan_loop alloc path a s with
      | .ok s1 => scan_loop alloc path b s1
      | .error err => .error err := by
  induction a with
  | eof => intro s; rfl
  | entry d_name st opens sub rest _ ih =>
    intro s
    simp only [Listing.append, scan_loop]
    by_cases hd : is_dot d_name = true
    · simp only [hd, if_true]
      exact ih s
    · by_cases hl : path_len path d_name ≥ MAX_PATH
      · simp only [hd, hl, if_true, if_false, Bool.false_eq_true]
        exact ih _
      · cases st with
        | none =>
          simp only [hd, hl, if_false, Bool.false_eq_true]
          exact ih s
        | some statbuf =>
          simp only [hd, hl, if_false, Bool.false_eq_true]
          generalize (if s.entry_count ≥ s.entry_capacity then s.entry_capacity * 2
            else s.entry_capacity) = cap
          by_cases hc : s.entry_count ≥ s.entry_capacity ∧ alloc cap = false
          · simp only [if_pos hc]
          · simp only [if_neg hc]
            exact ih _

theorem scan_loop_capacity (alloc : Nat → Bool) (path : CString) (es : Listing) :
    ∀ s s2 : Scan, scan_loop alloc path es s = .ok s2 →
      s.entry_count ≤ s.entry_capacity → (∃ k : Nat, s.entry_capacity = 16 * 2 ^ k) →
      s2.entry_count ≤ s2.entry_capacity ∧ ∃ k : Nat, s2.entry_capacity = 16 * 2 ^ k := by
  induction es with
  | eof =>
    intro s s2 h h1 h2
    simp only [scan_loop, Except.ok.injEq] at h
    subst h
    exact ⟨h1, h2⟩
  | entry d_name st opens sub rest _ ih =>
    intro s s2 h h1 h2
    simp only [scan_loop] at h
    by_cases hd : is_dot d_name = true
    · simp only [hd, if_true] at h
      exact ih s s2 h h1 h2
    · by_cases hl : path_len path d_name ≥ MAX_PATH
      · simp only [hd, hl, if_true, if_false, Bool.false_eq_true] at h
        exact ih _ s2 h h1 h2
      · cases st with
        | none =>
          simp only [hd, hl, if_false, Bool.false_eq_true] at h
          exact ih s s2 h h1 h2
        | some statbuf =>
          simp only [hd, hl, if_false, Bool.false_eq_true] at h
          obtain ⟨k, hk⟩ := h2
          by_cases hge : s.entry_count ≥ s.entry_capacity
          · simp only [hge, if_true, true_and] at h
            by_cases ha : alloc (s.entry_capacity * 2) = false
            · rw [if_pos ha] at h
              exact absurd h (by simp)
            · rw [if_neg ha] at h
              refine ih _ s2 h ?_ ⟨k + 1, ?_⟩
              · have : 0 < s.entry_capacity := by rw [hk]; positivity
                show s.entry_count + 1 ≤ s.entry_capacity * 2
                omega
              · show s.entry_capacity * 2 = 16 * 2 ^ (k + 1)
                rw [hk, pow_succ]
                ring
          · simp only [hge, if_false, false_and] at h
            refine ih _ s2 h ?_ ⟨k, hk⟩
            show s.entry_count + 1 ≤ s.entry_capacity
            omega

/-- C16: after the scan loop the collection holds exactly one entry per
immediate child that is neither `.` nor `..` nor skipped, in the order met,
with the name and size of the child, and `entry_count` is their number and at
most `entry_capacity`, which is 16 doubled some number of times.  When an entry
is written, the state before it comes from the entries read so far,
`entry_count` is below the capacity in force (doubled first when the array was
full), and the entries collected before are an unchanged prefix of the final
collection. -/
theorem scan_collection_invariant :
    (∀ (alloc : Nat → Bool) (p : CString) (es : Listing) (s : Scan),
      scan_loop alloc p es Scan.init = .ok s →
      s.entries = collected p es ∧ s.entry_count = s.entries.length ∧
      s.entry_count ≤ s.entry_capacity ∧ ∃ k : Nat, s.entry_capacity = 16 * 2 ^ k) ∧
    (∀ (alloc : Nat → Bool) (p : CString) (before after : Listing) (d_name : CString)
        (statbuf : Stat) (opens : Bool) (sub : Listing) (s2 : Scan),
      is_dot d_name = false → path_len p d_name < MAX_PATH →
      scan_loop alloc p (before.append (.entry d_name (some statbuf) opens sub after))
        Scan.init = .ok s2 →
      ∃ s1 : Scan, scan_loop alloc p before Scan.init = .ok s1 ∧
        s1.entry_count = s1.entries.length ∧
        s1.entry_count <
          (if s1.entry_count ≥ s1.entry_capacity then s1.entry_capacity * 2
            else s1.entry_capacity) ∧
        s2.entries = s1.entries ++
          { path := d_name
            size :=
              if S_ISDIR statbuf.st_mode then
                (calculate_dir_size (some (compose p d_name)) (opendir_entry opens sub) false).1
              else statbuf.st_size } :: collected p after) := by
  have hinit : Scan.init.entry_count ≤ Scan.init.entry_capacity ∧
      ∃ k : Nat, Scan.init.entry_capacity = 16 * 2 ^ k := ⟨by decide, 0, rfl⟩
  refine ⟨?_, ?_⟩
  · intro alloc p es s hscan
    obtain ⟨h1, h2, _⟩ := scan_init_ok alloc p es s hscan
    obtain ⟨h3, h4⟩ := scan_loop_capacity alloc p es _ s hscan hinit.1 hinit.2
    exact ⟨h1, h2, h3, h4⟩
  · intro alloc p before after d_name statbuf opens sub s2 hd hl hscan
    rw [scan_loop_append] at hscan
    cases h1 : scan_loop alloc p before Scan.init with
    | error err => rw [h1] at hscan; exact absurd hscan (by simp)
    | ok s1 =>
      rw [h1] at hscan
      simp only at hscan
      obtain ⟨_, hcount, _⟩ := scan_init_ok alloc p before s1 h1
      obtain ⟨hle, k, hk⟩ := scan_loop_capacity alloc p before _ s1 h1 hinit.1 hinit.2
      obtain ⟨hent, _, _⟩ := scan_loop_ok alloc p _ s1 s2 hscan
      have hl2 : ¬ path_len p d_name ≥ MAX_PATH := by omega
      refine ⟨s1, rfl, hcount, ?_, ?_⟩
      · have : 0 < s1.entry_capacity := by rw [hk]; positivity
        split <;> omega
      · rw [hent]
        simp only [collected, hd, hl2, if_false, Bool.false_eq_true]

/-- Witness for C16: a file, a subdirectory, a file. -/
theorem scan_collection_invariant_witness :
    scan_loop (fun _ => true) ['/', 'r']
        ((file_entry "a" 300 .eof).append
          (.entry ['d'] (some ⟨.dir, 4096⟩) true (file_entry "x" 100 .eof)
            (file_entry "c" 200 .eof))) Scan.init =
      .ok ⟨[⟨['a'], 300⟩, ⟨['d'], 100⟩, ⟨['c'], 200⟩], 3, 16, 600, []⟩ ∧
    ∃ s1 : Scan,
      scan_loop (fun _ => true) ['/', 'r'] (file_entry "a" 300 .eof) Scan.init = .ok s1 ∧
      s1.entry_count = s1.entries.length ∧
      s1.entry_count <
        (if s1.entry_count ≥ s1.entry_capacity then s1.entry_capacity * 2
          else s1.entry_capacity) ∧
      [⟨['a'], 300⟩, ⟨['d'], 100⟩, ⟨['c'], 200⟩] = s1.entries ++
        { path := ['d']
          size :=
            if S_ISDIR FileType.dir then
              (calculate_dir_size (some (compose ['/', 'r'] ['d']))
                (opendir_entry true (file_entry "x" 100 .eof)) false).1
            else 4096 } :: collected ['/', 'r'] (file_entry "c" 200 .eof) :=
  ⟨rfl,
    scan_collection_invariant.2 (fun _ => true) ['/', 'r'] (file_entry "a" 300 .eof)
      (file_entry "c" 200 .eof) ['d'] ⟨.dir, 4096⟩ true (file_entry "x" 100 .eof)
      ⟨[⟨['a'], 300⟩, ⟨['d'], 100⟩, ⟨['c'], 200⟩], 3, 16, 600, []⟩ rfl (by decide) rfl⟩

/-! ## C14: the accumulations do not wrap -/

/-- The recursive call at line 81: on a directory entry the loop adds what
`calculate_dir_size` returns for the composed path, and appends what it writes
to `stderr`. -/
theorem dir_loop_entry_dir (path : CString) (sd : Bool) (d_name : CString) (statbuf : Stat)
    (opens : Bool) (sub rest : Listing) (acc : Int × List Diag)
    (hd : is_dot d_name = false) (hl : ¬ path_len path d_name ≥ MAX_PATH)
    (hdir : S_ISDIR statbuf.st_mode = true) :
    dir_loop path sd (.entry d_name (some statbuf) opens sub rest) acc =
      dir_loop path sd rest
        (wrap64 (acc.1 +
          (calculate_dir_size (some (compose path d_name)) (opendir_entry opens sub) sd).1),
         acc.2 ++
          (calculate_dir_size (some (compose path d_name)) (opendir_entry opens sub) sd).2) := by
  simp only [dir_loop, hd, hl, hdir, if_true, if_false, Bool.false_eq_true]
  cases opens <;> simp [calculate_dir_size, opendir_entry]

theorem dir_loop_counted (sd : Bool) (path : CString) (es : Listing) :
    ∀ acc : Int × List Diag,
      (dir_loop path sd es acc).1 ≡ acc.1 + counted_total path es [ZMOD 2 ^ 64] := by
  induction es generalizing path with
  | eof => intro acc; simp [dir_loop, counted_total, Int.ModEq]
  | entry d_name st opens sub rest ih_sub ih_rest =>
    intro acc
    simp only [dir_loop, counted_total]
    by_cases hd : is_dot d_name = true
    · simp only [hd, if_true]
      exact ih_rest path acc
    · by_cases hl : path_len path d_name ≥ MAX_PATH
      · simp only [hd, hl, if_true, if_false, Bool.false_eq_true]
        exact ih_rest path _
      · cases st with
        | none =>
          simp only [hd, hl, if_false, Bool.false_eq_true]
          exact ih_rest path _
        | some statbuf =>
          by_cases hdir : S_ISDIR statbuf.st_mode = true
          · simp only [hd, hl, hdir, if_true, if_false, Bool.false_eq_true]
            cases opens with
            | true =>
              have e1 := ih_sub (compose path d_name) (0, [])
              have e2 := ih_rest path
                (wrap64 (acc.1 + (dir_loop (compose path d_name) sd sub (0, [])).1),
                  acc.2 ++ (dir_loop (compose path d_name) sd sub (0, [])).2)
              have e3 := wrap64_modEq (acc.1 + (dir_loop (compose path d_name) sd sub (0, [])).1)
              simp only [if_true]
              simp only [Int.ModEq] at e1 e2 e3 ⊢
              omega
            | false =>
              have e2 := ih_rest path (wrap64 (acc.1 + 0),
                acc.2 ++ (if sd = true then [Diag.warn_cannot_open (compose path d_name)] else []))
              have e3 := wrap64_modEq (acc.1 + 0)
              simp only [Bool.false_eq_true, if_false]
              simp only [Int.ModEq] at e2 e3 ⊢
              omega
          · by_cases hreg : S_ISREG statbuf.st_mode = true
            · simp only [hd, hl, hdir, hreg, if_true, if_false, Bool.false_eq_true]
              have e2 := ih_rest path (wrap64 (acc.1 + statbuf.st_size), acc.2)
              have e3 := wrap64_modEq (acc.1 + statbuf.st_size)
              simp only [Int.ModEq] at e2 e3 ⊢
              omega
            · simp only [hd, hl, hdir, hreg, if_false, Bool.false_eq_true]
              exact ih_rest path acc

theorem counted_total_bounds (es : Listing) :
    ∀ path : CString, regular_sizes_nonneg es = true →
      0 ≤ counted_total path es ∧ counted_total path es ≤ regular_file_total es := by
  induction es with
  | eof => intro path _; simp [counted_total, regular_file_total]
  | entry d_name st opens sub rest ih_sub ih_rest =>
    intro path h
    simp only [regular_sizes_nonneg, Bool.and_eq_true, Bool.or_eq_true] at h
    obtain ⟨h1, h2⟩ := h
    obtain ⟨r1, r2⟩ := ih_rest path h2
    simp only [counted_total, regular_file_total]
    cases hd : is_dot d_name with
    | true =>
      simp only [if_true]
      constructor <;> omega
    | false =>
      simp only [hd, Bool.false_eq_true, false_or, if_false] at h1 ⊢
      rcases st with _ | ⟨mode, sz⟩
      · by_cases hl : path_len path d_name ≥ MAX_PATH <;> simp only [hl, if_true, if_false] <;>
          constructor <;> omega
      · cases mode
        case dir =>
          simp only at h1
          obtain ⟨s1, s2⟩ := ih_sub (compose path d_name) h1
          by_cases hl : path_len path d_name ≥ MAX_PATH
          · simp only [hl, if_true]
            constructor <;> omega
          · cases opens <;>
              simp only [hl, if_true, if_false, S_ISDIR, Bool.false_eq_true] <;>
              constructor <;> omega
        case reg =>
          simp only [decide_eq_true_eq] at h1
          by_cases hl : path_len path d_name ≥ MAX_PATH <;>
            simp only [hl, if_true, if_false, S_ISDIR, S_ISREG, Bool.false_eq_true] <;>
            constructor <;> omega
        all_goals
          by_cases hl : path_len path d_name ≥ MAX_PATH <;>
            simp only [hl, if_true, if_false, S_ISDIR, S_ISREG, Bool.false_eq_true] <;>
            constructor <;> omega

theorem counted_total_eq_regular (es : Listing) :
    ∀ path : CString, all_readable path es = true →
      counted_total path es = regular_file_total es := by
  induction es with
  | eof => intro path _; rfl
  | entry d_name st opens sub rest ih_sub ih_rest =>
    intro path h
    simp only [all_readable, Bool.and_eq_true, Bool.or_eq_true, decide_eq_true_eq] at h
    obtain ⟨h1, h2⟩ := h
    have r := ih_rest path h2
    simp only [counted_total, regular_file_total]
    cases hd : is_dot d_name with
    | true =>
      simp only [if_true]
      omega
    | false =>
      simp only [hd, Bool.false_eq_true, false_or] at h1
      obtain ⟨hlen, hst⟩ := h1
      have hl : ¬ path_len path d_name ≥ MAX_PATH := by omega
      rcases st with _ | ⟨mode, sz⟩
      · simp at hst
      · cases mode
        case dir =>
          simp only [S_ISDIR, Bool.not_true, Bool.false_or, Bool.and_eq_true] at hst
          have rs := ih_sub (compose path d_name) hst.2
          simp only [hl, hst.1, if_true, if_false, S_ISDIR, Bool.false_eq_true]
          omega
        all_goals
          simp only [hl, if_true, if_false, S_ISDIR, S_ISREG, Bool.false_eq_true]
          omega

theorem dir_loop_exact (sd : Bool) (path : CString) (es : Listing) (acc : Int × List Diag)
    (h0 : 0 ≤ acc.1) (h1 : 0 ≤ counted_total path es)
    (h2 : acc.1 + counted_total path es < 2 ^ 63) :
    (dir_loop path sd es acc).1 = acc.1 + counted_total path es := by
  have hm := dir_loop_counted sd path es acc
  have hr := dir_loop_range path sd es acc (by omega) (by omega)
  simp only [Int.ModEq] at hm
  omega

theorem dir_loop_sums_bound (sd : Bool) (es : Listing) :
    ∀ (path : CString) (t : Int), 0 ≤ t → regular_sizes_nonneg es = true →
      t + counted_total path es < 2 ^ 63 →
      ∀ v ∈ dir_loop_sums path sd es t, 0 ≤ v ∧ v < 2 ^ 63 := by
  induction es with
  | eof => intro path t _ _ _ v hv; simp [dir_loop_sums] at hv
  | entry d_name st opens sub rest ih_sub ih_rest =>
    intro path t ht hnn hb v hv
    simp only [regular_sizes_nonneg, Bool.and_eq_true, Bool.or_eq_true] at hnn
    obtain ⟨n1, n2⟩ := hnn
    obtain ⟨r1, _⟩ := counted_total_bounds rest path n2
    simp only [dir_loop_sums] at hv
    simp only [counted_total] at hb
    cases hd : is_dot d_name with
    | true =>
      simp only [hd, if_true] at hv hb
      exact ih_rest path t ht n2 hb v hv
    | false =>
      simp only [hd, Bool.false_eq_true, false_or, if_false] at n1 hv hb
      by_cases hl : path_len path d_name ≥ MAX_PATH
      · simp only [hl, if_true] at hv hb
        exact ih_rest path t ht n2 hb v hv
      · simp only [hl, if_false] at hv hb
        rcases st with _ | ⟨mode, sz⟩
        · exact ih_rest path t ht n2 hb v hv
        · cases mode with
          | dir =>
            simp only at n1
            obtain ⟨s1, _⟩ := counted_total_bounds sub (compose path d_name) n1
            simp only [S_ISDIR, if_true] at hv hb
            cases opens with
            | true =>
              simp only [if_true] at hv hb
              have hr : (calculate_dir_size (some (compose path d_name))
                  (opendir_entry true sub) sd).1 = counted_total (compose path d_name) sub := by
                have := dir_loop_exact sd (compose path d_name) sub (0, []) (le_refl 0) s1
                  (by simp only; omega)
                simpa [calculate_dir_size, opendir_entry] using this
              rw [hr] at hv
              rcases List.mem_append.1 hv with hv | hv
              · exact ih_sub (compose path d_name) 0 (le_refl 0) n1 (by omega) v hv
              · rcases List.mem_cons.1 hv with hv | hv
                · rw [hv]
                  constructor <;> omega
                · rw [wrap64_of_range _ (by omega) (by omega)] at hv
                  exact ih_rest path _ (by omega) n2 (by omega) v hv
            | false =>
              simp only [Bool.false_eq_true, if_false, List.nil_append] at hv hb
              have hr : (calculate_dir_size (some (compose path d_name))
                  (opendir_entry false sub) sd).1 = 0 := by
                simp [calculate_dir_size, opendir_entry]
              rw [hr] at hv
              rcases List.mem_cons.1 hv with hv | hv
              · rw [hv]
                constructor <;> omega
              · rw [wrap64_of_range _ (by omega) (by omega)] at hv
                exact ih_rest path _ (by omega) n2 (by omega) v hv
          | reg =>
            simp only [decide_eq_true_eq] at n1
            simp only [S_ISDIR, S_ISREG, if_true, if_false, Bool.false_eq_true] at hv hb
            rcases List.mem_cons.1 hv with hv | hv
            · rw [hv]
              constructor <;> omega
            · rw [wrap64_of_range _ (by omega) (by omega)] at hv
              exact ih_rest path _ (by omega) n2 (by omega) v hv
          | _ =>
            simp only [S_ISDIR, S_ISREG, if_false, Bool.false_eq_true] at hv hb
            exact ih_rest path t ht n2 hb v hv

theorem sum64_sums_bound (l : List DirEntry) :
    ∀ t : Int, 0 ≤ t → (∀ e ∈ l, 0 ≤ e.size) → t + (l.map DirEntry.size).sum < 2 ^ 63 →
      (∀ v ∈ sum64_sums t l, 0 ≤ v ∧ v < 2 ^ 63) ∧
      sum64 t l = t + (l.map DirEntry.size).sum := by
  induction l with
  | nil => intro t _ _ _; simp [sum64_sums, sum64]
  | cons e l ih =>
    intro t ht hnn hb
    have he : 0 ≤ e.size := hnn e (List.mem_cons_self _ _)
    have hs : 0 ≤ (l.map DirEntry.size).sum :=
      List.sum_nonneg (by
        intro x hx
        obtain ⟨e2, he2, rfl⟩ := List.mem_map.1 hx
        exact hnn e2 (List.mem_cons_of_mem _ he2))
    simp only [List.map_cons, List.sum_cons] at hb
    have hw : wrap64 (t + e.size) = t + e.size := wrap64_of_range _ (by omega) (by omega)
    obtain ⟨i1, i2⟩ := ih (t + e.size) (by omega)
      (fun x hx => hnn x (List.mem_cons_of_mem _ hx)) (by omega)
    refine ⟨?_, ?_⟩
    · intro v hv
      simp only [sum64_sums, hw, List.mem_cons] at hv
      rcases hv with hv | hv
      · rw [hv]
        constructor <;> omega
      · exact i1 v hv
    · rw [sum64_cons, hw, i2]
      simp only [List.map_cons, List.sum_cons]
      omega

/-- C14 (as stated) fails: a directory with a regular file of `2^63 - 1`
bytes and a symbolic link of 1 byte has non-negative regular file sizes that
sum to less than `2^63`, but `analyze_directory` also adds the size of the
link: the second sum is `2^63` and the grand total wraps to `-2^63`. -/
theorem accumulation_wraps_counterexample :
    regular_sizes_nonneg max_file_and_link = true ∧
    regular_file_total max_file_and_link = 2 ^ 63 - 1 ∧
    scan_loop (fun _ => true) ['/', 'r'] max_file_and_link Scan.init =
      .ok ⟨[⟨['a'], 2 ^ 63 - 1⟩, ⟨['s'], 1⟩], 2, 16, -2 ^ 63, []⟩ ∧
    sum64_sums 0 [⟨['a'], 2 ^ 63 - 1⟩, ⟨['s'], 1⟩] = [2 ^ 63 - 1, 2 ^ 63] := by
  refine ⟨by decide, by decide, ?_, by decide⟩
  simp [scan_loop, max_file_and_link, file_entry, is_dot, path_len, compose, MAX_PATH,
    Scan.init, S_ISDIR, wrap64]

/-- C14 (amended): for every tree whose regular file sizes are non-negative
and sum to less than `2^63`, every sum computed by `calculate_dir_size`, in the
recursive calls too, lies in `[0, 2^63)` before its reduction to 64 bits; the
result is the exact sum of the sizes it counts, it is non-negative, and it is
the sum over all regular files when the whole tree is readable.  The grand
total of `analyze_directory` behaves the same way when the sizes recorded for
the immediate children, which include the `st_size` of entries that are not
regular files, are non-negative and sum to less than `2^63`. -/
theorem accumulation_never_wraps :
    (∀ (p : CString) (es : Listing) (show_details : Bool),
      regular_sizes_nonneg es = true → regular_file_total es < 2 ^ 63 →
      (∀ v ∈ dir_loop_sums p show_details es 0, 0 ≤ v ∧ v < 2 ^ 63) ∧
      (calculate_dir_size (some p) (some es) show_details).1 = counted_total p es ∧
      0 ≤ (calculate_dir_size (some p) (some es) show_details).1 ∧
      (all_readable p es = true →
        (calculate_dir_size (some p) (some es) show_details).1 = regular_file_total es)) ∧
    (∀ (alloc : Nat → Bool) (p : CString) (es : Listing) (s : Scan),
      scan_loop alloc p es Scan.init = .ok s →
      (∀ e ∈ s.entries, 0 ≤ e.size) → (s.entries.map DirEntry.size).sum < 2 ^ 63 →
      (∀ v ∈ sum64_sums 0 s.entries, 0 ≤ v ∧ v < 2 ^ 63) ∧
      s.total_size = (s.entries.map DirEntry.size).sum ∧
      0 ≤ s.total_size) := by
  refine ⟨?_, ?_⟩
  · intro p es sd hnn hlt
    obtain ⟨b1, b2⟩ := counted_total_bounds es p hnn
    have hres : (calculate_dir_size (some p) (some es) sd).1 = counted_total p es := by
      have := dir_loop_exact sd p es (0, []) (le_refl 0) b1 (by simp only; omega)
      simpa [calculate_dir_size] using this
    refine ⟨?_, hres, by omega, fun hr => ?_⟩
    · exact dir_loop_sums_bound sd es p 0 (le_refl 0) hnn (by omega)
    · rw [hres, counted_total_eq_regular es p hr]
  · intro alloc p es s hscan hnn hlt
    obtain ⟨_, _, htotal⟩ := scan_init_ok alloc p es s hscan
    obtain ⟨h1, h2⟩ := sum64_sums_bound s.entries 0 (le_refl 0) hnn (by omega)
    have hs : 0 ≤ (s.entries.map DirEntry.size).sum :=
      List.sum_nonneg (by
        intro x hx
        obtain ⟨e, he, rfl⟩ := List.mem_map.1 hx
        exact hnn e he)
    refine ⟨h1, by rw [htotal, h2]; omega, by rw [htotal, h2]; omega⟩

/-- Witness for C14 (amended): the sample tree, below `/r` and at the top
level. -/
theorem accumulation_never_wraps_witness :
    regular_sizes_nonneg sample_tree = true ∧ regular_file_total sample_tree < 2 ^ 63 ∧
    dir_loop_sums ['/', 'r'] true sample_tree 0 = [300, 100, 50, 150, 450, 650] ∧
    (∀ v ∈ dir_loop_sums ['/', 'r'] true sample_tree 0, 0 ≤ v ∧ v < 2 ^ 63) ∧
    (calculate_dir_size (some ['/', 'r']) (some sample_tree) true).1 =
      counted_total ['/', 'r'] sample_tree ∧
    scan_loop (fun _ => true) ['/', 'r'] sample_tree Scan.init =
      .ok ⟨[⟨['a'], 300⟩, ⟨['d'], 150⟩, ⟨['s'], 11⟩, ⟨['c'], 200⟩], 4, 16, 661, []⟩ ∧
    (∀ v ∈ sum64_sums 0 [⟨['a'], 300⟩, ⟨['d'], 150⟩, ⟨['s'], 11⟩, ⟨['c'], 200⟩],
      0 ≤ v ∧ v < 2 ^ 63) :=
  let h1 := accumulation_never_wraps.1 ['/', 'r'] sample_tree true (by decide) (by decide)
  let h2 := accumulation_never_wraps.2 (fun _ => true) ['/', 'r'] sample_tree
    ⟨[⟨['a'], 300⟩, ⟨['d'], 150⟩, ⟨['s'], 11⟩, ⟨['c'], 200⟩], 4, 16, 661, []⟩ rfl
    (by decide) (by decide)
  ⟨by decide, by decide, by decide, h1.1, h1.2.1, rfl, h2.1⟩

/-! ## C18: independence of the enumeration order -/

theorem counted_total_entry (path : CString) (d_name : CString) (st : Option Stat)
    (opens : Bool) (sub rest : Listing) :
    counted_total path (.entry d_name st opens sub rest) =
      counted_total path (.entry d_name st opens sub .eof) + counted_total path rest := by
  simp only [counted_total]
  split
  · simp
  · split
    · simp
    · split
      · simp
      · split
        · simp
        · split <;> simp

theorem counted_total_perm {es es2 : Listing} (h : Listing.Perm es es2) :
    ∀ path : CString, counted_total path es = counted_total path es2 := by
  induction h with
  | eof => intro path; rfl
  | entry d_name st opens _ _ ih_sub ih_rest =>
    intro path
    simp only [counted_total, ih_rest path, ih_sub (compose path d_name)]
  | swap a sta oa suba b stb ob subb rest =>
    intro path
    rw [counted_total_entry path a sta oa suba (.entry b stb ob subb rest),
      counted_total_entry path b stb ob subb rest,
      counted_total_entry path b stb ob subb (.entry a sta oa suba rest),
      counted_total_entry path a sta oa suba rest]
    omega
  | trans _ _ ih1 ih2 => intro path; rw [ih1 path, ih2 path]

theorem calculate_dir_size_eq_wrap (path : CString) (es : Listing) (sd : Bool) :
    (calculate_dir_size (some path) (some es) sd).1 = wrap64 (counted_total path es) := by
  have hm := dir_loop_counted sd path es (0, [])
  have hr := dir_loop_range path sd es (0, []) (by norm_num) (by norm_num)
  have hw := wrap64_range (counted_total path es)
  have hw2 := wrap64_modEq (counted_total path es)
  simp only [calculate_dir_size]
  simp only [Int.ModEq] at hm hw2
  omega

theorem calculate_dir_size_perm {es es2 : Listing} (h : Listing.Perm es es2) (path : CString)
    (sd : Bool) :
    (calculate_dir_size (some path) (some es) sd).1 =
      (calculate_dir_size (some path) (some es2) sd).1 := by
  rw [calculate_dir_size_eq_wrap, calculate_dir_size_eq_wrap, counted_total_perm h path]

theorem collected_entry (path : CString) (d_name : CString) (st : Option Stat)
    (opens : Bool) (sub rest : Listing) :
    collected path (.entry d_name st opens sub rest) =
      collected path (.entry d_name st opens sub .eof) ++ collected path rest := by
  simp only [collected]
  split
  · simp
  · split
    · simp
    · split <;> simp

theorem collected_perm {es es2 : Listing} (h : Listing.Perm es es2) :
    ∀ path : CString, (collected path es).Perm (collected path es2) := by
  induction h with
  | eof => intro path; exact List.Perm.refl _
  | @entry d_name st opens sub sub2 rest rest2 hsub _ _ ih_rest =>
    intro path
    have hsize : (calculate_dir_size (some (compose path d_name)) (opendir_entry opens sub)
        false).1 = (calculate_dir_size (some (compose path d_name)) (opendir_entry opens sub2)
        false).1 := by
      cases opens with
      | true => exact calculate_dir_size_perm hsub _ _
      | false => rfl
    rw [collected_entry path d_name st opens sub rest,
      collected_entry path d_name st opens sub2 rest2]
    have hhead : collected path (.entry d_name st opens sub .eof) =
        collected path (.entry d_name st opens sub2 .eof) := by
      simp only [collected, hsize]
    rw [hhead]
    exact List.Perm.append_left _ (ih_rest path)
  | swap a sta oa suba b stb ob subb rest =>
    intro path
    rw [collected_entry path a sta oa suba (.entry b stb ob subb rest),
      collected_entry path b stb ob subb rest,
      collected_entry path b stb ob subb (.entry a sta oa suba rest),
      collected_entry path a sta oa suba rest, ← List.append_assoc, ← List.append_assoc]
    exact List.Perm.append_right _ List.perm_append_comm
  | trans _ _ ih1 ih2 => intro path; exact (ih1 path).trans (ih2 path)

theorem scan_loop_ok_iff (alloc : Nat → Bool) (path : CString) (es : Listing) :
    ∀ s : Scan, (∃ s2 : Scan, scan_loop alloc path es s = .ok s2) ↔
      can_grow alloc s.entry_count s.entry_capacity (collected path es).length = true := by
  induction es with
  | eof => intro s; simp [scan_loop, collected, can_grow]
  | entry d_name st opens sub rest _ ih =>
    intro s
    simp only [scan_loop, collected]
    by_cases hd : is_dot d_name = true
    · simp only [hd, if_true]
      exact ih s
    · by_cases hl : path_len path d_name ≥ MAX_PATH
      · simp only [hd, hl, if_true, if_false, Bool.false_eq_true]
        exact ih _
      · cases st with
        | none =>
          simp only [hd, hl, if_false, Bool.false_eq_true]
          exact ih s
        | some statbuf =>
          simp only [hd, hl, if_false, Bool.false_eq_true, List.length_cons, can_grow]
          generalize (if s.entry_count ≥ s.entry_capacity then s.entry_capacity * 2
            else s.entry_capacity) = cap
          by_cases hc : s.entry_count ≥ s.entry_capacity ∧ alloc cap = false
          · simp only [if_pos hc]
            simp
          · simp only [if_neg hc]
            exact ih _

theorem sum64_perm {l l2 : List DirEntry} (h : l.Perm l2) : sum64 0 l = sum64 0 l2 := by
  have m1 := sum64_modEq l 0
  have m2 := sum64_modEq l2 0
  have r1 := sum64_range l 0 (by norm_num) (by norm_num)
  have r2 := sum64_range l2 0 (by norm_num) (by norm_num)
  have hs : (l.map DirEntry.size).sum = (l2.map DirEntry.size).sum := (h.map _).sum_eq
  simp only [Int.ModEq] at m1 m2
  omega

theorem sorted_perm_unique {l l2 : List DirEntry} (h : l.Perm l2)
    (h1 : l.Pairwise (fun a b => b.size ≤ a.size))
    (h2 : l2.Pairwise (fun a b => b.size ≤ a.size))
    (hn : (l.map DirEntry.size).Nodup) : l = l2 := by
  have hn2 : (l2.map DirEntry.size).Nodup := (h.map DirEntry.size).nodup_iff.1 hn
  have strict : ∀ {m : List DirEntry}, m.Pairwise (fun a b => b.size ≤ a.size) →
      (m.map DirEntry.size).Nodup → m.Pairwise (fun a b => b.size < a.size) := by
    intro m hm hnd
    have hne : m.Pairwise (fun a b => a.size ≠ b.size) := by
      simpa [List.Nodup, List.pairwise_map] using hnd
    exact (hm.and hne).imp (fun {a b} hab => lt_of_le_of_ne hab.1 (fun e => hab.2 e.symm))
  haveI : IsAntisymm DirEntry (fun a b => b.size < a.size) :=
    ⟨fun a b hab hba => absurd hab (not_lt.2 (le_of_lt hba))⟩
  exact List.eq_of_perm_of_sorted h (strict h1 hn) (strict h2 hn2)

theorem non_rows_of_report (s : Scan) (limit : Int) :
    (report s limit).filter (fun o => !o.is_row) =
      if s.entry_count = 0 then [Out.total (format_size s.total_size), Out.no_entries]
      else [Out.total (format_size s.total_size), Out.header] := by
  unfold report
  by_cases h : s.entry_count = 0
  · simp [h, Out.is_row]
  · have hpos : s.entry_count > 0 := Nat.pos_of_ne_zero h
    simp only [h, hpos, if_true, if_false]
    rw [List.filter_cons_of_pos (by simp [Out.is_row]),
      List.filter_cons_of_pos (by simp [Out.is_row])]
    congr 2
    rw [List.filter_eq_nil_iff]
    intro o ho
    obtain ⟨e, _, rfl⟩ := List.mem_map.1 ho
    simp [row_of, Out.is_row]

theorem analyze_directory_error (alloc : Nat → Bool) (p : CString) (es : Listing) (limit : Int)
    (err : List Diag) (hmem : alloc 16 = true)
    (hscan : scan_loop alloc p es Scan.init = .error err) :
    analyze_directory alloc (some p) (some es) limit =
      { stdout := [Out.analyzing p, Out.scanning], stderr := err } := by
  simp [analyze_directory, hmem, hscan]

theorem scan_perm {es es2 : Listing} (h : Listing.Perm es es2) (alloc : Nat → Bool)
    (p : CString) :
    (∀ s : Scan, scan_loop alloc p es Scan.init = .ok s →
      ∃ s2 : Scan, scan_loop alloc p es2 Scan.init = .ok s2 ∧ s.entries.Perm s2.entries ∧
        s.entry_count = s2.entry_count ∧ s.total_size = s2.total_size) := by
  intro s hs
  have hp := collected_perm h p
  have hok : ∃ s2 : Scan, scan_loop alloc p es2 Scan.init = .ok s2 := by
    rw [scan_loop_ok_iff, ← hp.length_eq, ← scan_loop_ok_iff]
    exact ⟨s, hs⟩
  obtain ⟨s2, hs2⟩ := hok
  obtain ⟨a1, a2, a3⟩ := scan_init_ok alloc p es s hs
  obtain ⟨b1, b2, b3⟩ := scan_init_ok alloc p es2 s2 hs2
  have hperm : s.entries.Perm s2.entries := by rw [a1, b1]; exact hp
  exact ⟨s2, hs2, hperm, by rw [a2, b2, hperm.length_eq], by rw [a3, b3, sum64_perm hperm]⟩

theorem listing_perm_symm {es es2 : Listing} (h : Listing.Perm es es2) :
    Listing.Perm es2 es := by
  induction h with
  | eof => exact Listing.Perm.eof
  | entry d_name st opens _ _ ih_sub ih_rest => exact Listing.Perm.entry d_name st opens ih_sub ih_rest
  | swap a sta oa suba b stb ob subb rest => exact Listing.Perm.swap b stb ob subb a sta oa suba rest
  | trans _ _ ih1 ih2 => exact Listing.Perm.trans ih2 ih1

/-- C18: when two trees differ only in the order in which the entries of each
directory are enumerated, `calculate_dir_size` returns the same total, and
`analyze_directory` prints the same lines apart from the rows, in particular
the same grand total; when the sizes collected are pairwise distinct it prints
the same rows in the same order as well. -/
theorem enumeration_order_independent :
    (∀ (es es2 : Listing) (p : CString) (show_details : Bool), Listing.Perm es es2 →
      (calculate_dir_size (some p) (some es) show_details).1 =
        (calculate_dir_size (some p) (some es2) show_details).1) ∧
    (∀ (alloc : Nat → Bool) (p : CString) (es es2 : Listing) (limit : Int),
      Listing.Perm es es2 →
      (analyze_directory alloc (some p) (some es) limit).stdout.filter (fun o => !o.is_row) =
        (analyze_directory alloc (some p) (some es2) limit).stdout.filter
          (fun o => !o.is_row) ∧
      (((collected p es).map DirEntry.size).Nodup →
        (analyze_directory alloc (some p) (some es) limit).stdout =
          (analyze_directory alloc (some p) (some es2) limit).stdout)) := by
  refine ⟨fun es es2 p sd h => calculate_dir_size_perm h p sd, ?_⟩
  intro alloc p es es2 limit h
  cases hmem : alloc 16 with
  | false => simp [analyze_directory, hmem]
  | true =>
    cases h1 : scan_loop alloc p es Scan.init with
    | error err =>
      cases h2 : scan_loop alloc p es2 Scan.init with
      | error err2 =>
        rw [analyze_directory_error alloc p es limit err hmem h1,
          analyze_directory_error alloc p es2 limit err2 hmem h2]
        exact ⟨rfl, fun _ => rfl⟩
      | ok s2 =>
        obtain ⟨s, hs, _⟩ := scan_perm (listing_perm_symm h) alloc p s2 h2
        rw [h1] at hs
        exact absurd hs (by simp)
    | ok s =>
      obtain ⟨s2, h2, hperm, hcount, htotal⟩ := scan_perm h alloc p s h1
      obtain ⟨hcol, _, _⟩ := scan_init_ok alloc p es s h1
      rw [analyze_directory_ok alloc p es limit s hmem h1,
        analyze_directory_ok alloc p es2 limit s2 hmem h2]
      refine ⟨?_, fun hn => ?_⟩
      · have e1 : ∀ l : List Out,
            List.filter (fun o : Out => !o.is_row) (Out.analyzing p :: Out.scanning :: l) =
              Out.analyzing p :: Out.scanning :: List.filter (fun o => !o.is_row) l := by
          intro l
          simp [List.filter, Out.is_row]
        rw [e1, e1, non_rows_of_report, non_rows_of_report, hcount, htotal]
      · have hq : qsort compare_entries s.entries = qsort compare_entries s2.entries := by
          apply sorted_perm_unique _ (qsort_sorted _) (qsort_sorted _)
          · rw [((qsort_perm s.entries).map DirEntry.size).nodup_iff, hcol]
            exact hn
          · exact (qsort_perm s.entries).trans (hperm.trans (qsort_perm s2.entries).symm)
        by_cases h0 : s2.entry_count = 0
        · simp [report, hcount, htotal, h0]
        · have hpos : s2.entry_count > 0 := Nat.pos_of_ne_zero h0
          simp only [report, hcount, htotal, h0, hpos, if_true, if_false, hq]

/-- Witness for C18: the directory with children of 300, 100 and 200 bytes,
enumerated with its first two entries exchanged. -/
theorem enumeration_order_independent_witness :
    Listing.Perm sample_sizes (file_entry "b" 100 (file_entry "a" 300 (file_entry "c" 200 .eof))) ∧
    ((collected ['/', 'r'] sample_sizes).map DirEntry.size).Nodup ∧
    (analyze_directory (fun _ => true) (some ['/', 'r']) (some sample_sizes) 2).stdout =
      (analyze_directory (fun _ => true) (some ['/', 'r'])
        (some (file_entry "b" 100 (file_entry "a" 300 (file_entry "c" 200 .eof)))) 2).stdout :=
  have hp : Listing.Perm sample_sizes
      (file_entry "b" 100 (file_entry "a" 300 (file_entry "c" 200 .eof))) :=
    Listing.Perm.swap _ _ _ _ _ _ _ _ _
  have hn : ((collected ['/', 'r'] sample_sizes).map DirEntry.size).Nodup := by decide
  ⟨hp, hn,
    (enumeration_order_independent.2 (fun _ => true) ['/', 'r'] sample_sizes _ 2 hp).2 hn⟩

end DiskUsage
